import Mathlib

/-!
# RedisAI `dag.c`: DAGRUN building blocks, execution and reply materialisation

A shallow embedding of `src/src/dag.c`:

* `RAI_parseDAGLoadArgs`    (dag.c 107-152), the `LOAD <n> key1 .. keyN` block,
* `RAI_parseDAGPersistArgs` (dag.c 157-191), the `PERSIST <n> key1 .. keyN` block,
* `RedisAI_DagRun_Reply`    (dag.c 59-102), the commit of the persisted tensors,
* `RedisAI_RunDag`          (dag.c 20-57), the run of one model operation.

Conventions of the embedding.

* `argv` is the list of command tokens and `argc` is its length.  A token is
  represented by the C string that `RedisModule_StringPtrLen` yields for it.
* Every call the C code makes on the Redis module context that is observable
  from outside (a reply, a log line, a keyspace access, a replication) is
  recorded, in program order, as an `Effect` in the `out` trace of the result.
* The keyspace, the outcome of opening a key and the outcome of setting a
  module value live in `RedisModuleCtx`; the run descriptor that the C code
  obtains with `RedisModule_GetBlockedClientPrivateData` is a field of it too.
* The C loops over `argv` are structural recursions over the tokens that are
  still unread, so every function is total.
* All counters stay far below the machine bounds (`number_loaded_keys` and
  `argpos` never exceed `argc`, an `int`), so they are plain `Nat`/`Int`.
* What `RedisAI_RunDag` gets from outside `dag.c` (whether a creation fails,
  what the backend returns and produces, the two clock readings) is gathered
  in `ModelRuntime`; its calls are recorded as `RunEffect`s, and the loop over
  the output positions is a recursion on the number of positions left.
-/

namespace RedisAI

/-! ## Data model -/

/-- A tensor handle (`RAI_Tensor *`): an opaque reference, identified by a number. -/
structure RAI_Tensor where
  id : Nat
  deriving DecidableEq

/-- The status `REDISMODULE_OK` of the Redis module API. -/
def REDISMODULE_OK : Int := 0

/-- The status `REDISMODULE_ERR` of the Redis module API. -/
def REDISMODULE_ERR : Int := 1

/-- Modelled from the spec: `AI_dict` (util/dict.h is not part of the sources).
The spec describes both dictionaries as insertion-ordered mappings from a key
name to a value in which "a name appears at most once"; the entries are kept
in insertion order, which is also the iteration order. -/
abbrev AI_dict (V : Type) := List (String × V)

/-- Modelled from the spec: `AI_dictFind` (util/dict.h is not part of the
sources): the entry stored under `key`, if there is one. -/
def AI_dictFind {V : Type} (d : AI_dict V) (key : String) : Option (String × V) :=
  d.find? (fun e => e.1 == key)

/-- The status `DICT_OK`, the result of an insertion that took place. -/
def DICT_OK : Int := 0

/-- The status `DICT_ERR`, the result of an insertion that was refused. -/
def DICT_ERR : Int := 1

/-- Modelled from the spec: `AI_dictAdd` (util/dict.h is not part of the
sources).  The spec says of the dictionaries that they are mutated "by
insertion only; never removes or overwrites" and that "a name appears at most
once": adding a key that is already present leaves the dictionary as it is and
reports `DICT_ERR`; a new key is appended after the existing entries. -/
def AI_dictAdd {V : Type} (d : AI_dict V) (key : String) (val : V) : AI_dict V × Int :=
  match AI_dictFind d key with
  | some _ => (d, DICT_ERR)
  | none => (d ++ [(key, val)], DICT_OK)

/-- The key names of a dictionary, in iteration order. -/
def AI_dictKeys {V : Type} (d : AI_dict V) : List String := d.map Prod.fst

/-- The observable calls the code makes on the module context, in the order made. -/
inductive Effect where
  /-- The call `RedisModule_WrongArity(ctx)` -/
  | WrongArity
  /-- The call `RedisModule_ReplyWithError(ctx, msg)` -/
  | ReplyWithError (msg : String)
  /-- The call `RedisModule_Log(ctx, level, msg)` with the message already formatted -/
  | Log (level : String) (msg : String)
  /-- The call `RAI_GetTensorFromKeyspace(ctx, key, ..)`: a lookup in the shared store -/
  | GetTensorFromKeyspace (key : String)
  /-- The call `RAI_OpenKey_Tensor(ctx, key, .., READ|WRITE)` and the status it returned -/
  | OpenKey_Tensor (key : String) (status : Int)
  /-- The call `RedisModule_ModuleTypeSetValue(key, RedisAI_TensorType, t)` and its status -/
  | ModuleTypeSetValue (key : String) (t : RAI_Tensor) (status : Int)
  /-- The call `RedisModule_CloseKey(key)` -/
  | CloseKey (key : String)
  /-- The call `RedisAI_ReplicateTensorSet(ctx, key, t)` -/
  | ReplicateTensorSet (key : String) (t : RAI_Tensor)
  /-- The call `RedisModule_ReplySetArrayLength(ctx, len)` -/
  | ReplySetArrayLength (len : Int)
  deriving DecidableEq

/-- Modelled from the spec: the error code `RAI_OK` (err.h is not part of the
sources).  The spec's error slot is "absent (OK) or present"; dag.c hands a
zeroed `RAI_Error` to the backend (line 21) and reads it back as no error
when its code is `RAI_OK` (line 49), so `RAI_OK` is the zero code. -/
def RAI_OK : Int := 0

/-- The error slot `RAI_Error`: a code and two strings, `none` for a `NULL`
string. -/
structure RAI_Error where
  code : Int
  detail : Option String
  detail_oneline : Option String
  deriving DecidableEq

/-- One batch of a model run context: the `tensor` fields of its input and of
its output parameters, `none` for a `NULL` tensor (the empty marker). -/
structure RAI_ModelCtxBatch where
  inputs : List (Option RAI_Tensor)
  outputs : List (Option RAI_Tensor)
  deriving DecidableEq

/-- The model run context `RAI_ModelRunCtx`: the model it is bound to,
identified by a number, and its batches. -/
structure RAI_ModelRunCtx where
  model : Nat
  batches : List RAI_ModelCtxBatch
  deriving DecidableEq

/-- The run descriptor `RedisAI_RunInfo`, with the fields `dag.c` uses. -/
structure RedisAI_RunInfo where
  /-- Field `dagTensorsContext`: the scoped tensor context, name to tensor -/
  dagTensorsContext : AI_dict RAI_Tensor
  /-- Field `dagTensorsPersistentContext`: the persist set, name to the marker `1` -/
  dagTensorsPersistentContext : AI_dict Nat
  /-- Field `dag_reply_length`: the running count of reply entries -/
  dag_reply_length : Int
  /-- Field `mctx`: the prepared model run context of the descriptor -/
  mctx : RAI_ModelRunCtx
  /-- Field `status`: the status of the run -/
  status : Int
  /-- Field `err`: the error slot, `none` for a `NULL` pointer -/
  err : Option RAI_Error
  /-- Field `duration_us`: the elapsed microseconds of the run -/
  duration_us : Int
  /-- Field `client`: the blocked client to resume, `none` for `NULL` -/
  client : Option Nat
  deriving DecidableEq

/-- The module context `RedisModuleCtx *ctx` as far as `dag.c` depends on it. -/
structure RedisModuleCtx where
  /-- The tensor stored under each key of the shared store; `none` for a key
  that is missing or holds a value of another type. -/
  keyspace : String → Option RAI_Tensor
  /-- Whether `RAI_OpenKey_Tensor` returns `REDISMODULE_ERR` for the key. -/
  openKeyFails : String → Bool
  /-- Whether `RedisModule_ModuleTypeSetValue` fails on the key. -/
  setValueFails : String → Bool
  /-- What `RedisModule_GetBlockedClientPrivateData(ctx)` returns. -/
  blockedClientPrivateData : RedisAI_RunInfo

/-! ## Redis module API used by the parsers -/

/-- The value of a decimal digit, `none` for any other character. -/
def digitValue (c : Char) : Option Nat :=
  if '0' ≤ c ∧ c ≤ '9' then some (c.toNat - '0'.toNat) else none

/-- Reads a run of decimal digits, continuing from the value `v`. -/
def parseDigits : List Char → Nat → Option Nat
  | [], v => some v
  | c :: cs, v =>
    match digitValue c with
    | none => none
    | some d => parseDigits cs (v * 10 + d)

/-- Modelled from the spec: `RedisModule_StringToLongLong` (the Redis module
API is not part of the sources).  The spec asks for the declared count to be
"a positive integer" and names "a parsed non-integer" as a failure: the token
has to be a strict decimal `long long` (an optional `-`, no sign `+`, no
blanks, no leading zero, within the signed 64-bit range); `none` stands for
a result other than `REDISMODULE_OK`. -/
def RedisModule_StringToLongLong (s : String) : Option Int :=
  match s.toList with
  | [] => none
  | c :: cs =>
    if c = '0' then (if cs = [] then some 0 else none)
    else if c = '-' then
      match cs with
      | [] => none
      | c1 :: _ =>
        if '1' ≤ c1 ∧ c1 ≤ '9' then
          match parseDigits cs 0 with
          | none => none
          | some v => if v ≤ 2 ^ 63 then some (-(v : Int)) else none
        else none
    else if '1' ≤ c ∧ c ≤ '9' then
      match parseDigits (c :: cs) 0 with
      | none => none
      | some v => if v ≤ 2 ^ 63 - 1 then some (v : Int) else none
    else none

/-- The characters of a C string with the upper-case ASCII letters lowered. -/
def lowerChars (s : String) : List Char := s.toList.map Char.toLower

/-- The C function `strcasecmp(a, b)`: zero exactly when the two strings are equal up to the
case of ASCII letters.  The code only tests the result against zero, so the
sign of a non-zero result is not modelled. -/
def strcasecmp (a b : String) : Int :=
  if lowerChars a = lowerChars b then 0 else 1

/-- The call `RAI_GetTensorFromKeyspace(ctx, key, &key, &t, REDISMODULE_READ)`: the
tensor stored under the key, or `none` when the call returns `REDISMODULE_ERR`. -/
def RAI_GetTensorFromKeyspace (ctx : RedisModuleCtx) (key : String) : Option RAI_Tensor :=
  ctx.keyspace key

/-- The error reply of both parsers for a count that is not a positive integer
(dag.c 118-119 and 168-169). -/
def invalidCountMsg : String :=
  "ERR invalid or negative value found in number of keys to LOAD"

/-- The warning logged when a LOAD key cannot be read (dag.c 137-140). -/
def loadWarning (arg_string : String) : String :=
  "on DAGRUN's LOAD could not load tensor " ++ arg_string ++ " from keyspace"

/-! ## The two parsers -/

/-- What a parser leaves behind: the returned `int`, the dictionary behind
`*localContextDict`, and the trace of effects. -/
structure ParseResult (V : Type) where
  ret : Int
  dict : AI_dict V
  out : List Effect

/-- Prepends an effect that happened before the rest of the run. -/
def ParseResult.after {V : Type} (e : Effect) (r : ParseResult V) : ParseResult V :=
  ⟨r.ret, r.dict, e :: r.out⟩

/-- The code after the `for` loop of either parser (dag.c 147-151, 186-190). -/
def parseArgsEnd {V : Type} (n_keys : Int) (argpos : Nat) (number_loaded_keys : Nat)
    (d : AI_dict V) : ParseResult V :=
  if (number_loaded_keys : Int) ≠ n_keys then
    ⟨-1, d, [Effect.WrongArity]⟩
  else
    ⟨(argpos : Int), d, []⟩

/-- The `for` loop of `RAI_parseDAGLoadArgs` (dag.c 126-146) followed by the
code after it.  The first list holds the tokens `argv[argpos .. argc-1]`, so
the test `argpos <= argc - 1` is the test that this list is not empty. -/
def loadArgsLoop (ctx : RedisModuleCtx) (chaining_operator : String) (n_keys : Int) :
    List String → Nat → Nat → AI_dict RAI_Tensor → ParseResult RAI_Tensor
  | [], argpos, number_loaded_keys, d => parseArgsEnd n_keys argpos number_loaded_keys d
  | arg_string :: rest, argpos, number_loaded_keys, d =>
    if (number_loaded_keys : Int) < n_keys then
      if strcasecmp arg_string chaining_operator = 0 then
        parseArgsEnd n_keys argpos number_loaded_keys d
      else
        match RAI_GetTensorFromKeyspace ctx arg_string with
        | none =>
          ⟨-1, d, [Effect.GetTensorFromKeyspace arg_string,
                   Effect.Log "warning" (loadWarning arg_string)]⟩
        | some t =>
          (loadArgsLoop ctx chaining_operator n_keys rest (argpos + 1)
            (number_loaded_keys + 1) (AI_dictAdd d arg_string t).1).after
            (Effect.GetTensorFromKeyspace arg_string)
    else
      parseArgsEnd n_keys argpos number_loaded_keys d

/-- The function `RAI_parseDAGLoadArgs(ctx, argv, argc, localContextDict, chaining_operator)`
(dag.c 107-152), with `argc = argv.length`. -/
def RAI_parseDAGLoadArgs (ctx : RedisModuleCtx) (argv : List String)
    (localContextDict : AI_dict RAI_Tensor) (chaining_operator : String) :
    ParseResult RAI_Tensor :=
  if argv.length < 3 then
    ⟨-1, localContextDict, [Effect.WrongArity]⟩
  else
    match (argv[1]?).bind RedisModule_StringToLongLong with
    | none => ⟨-1, localContextDict, [Effect.ReplyWithError invalidCountMsg]⟩
    | some n_keys =>
      if n_keys ≤ 0 then
        ⟨-1, localContextDict, [Effect.ReplyWithError invalidCountMsg]⟩
      else
        loadArgsLoop ctx chaining_operator n_keys (argv.drop 2) 2 0 localContextDict

/-- The `for` loop of `RAI_parseDAGPersistArgs` (dag.c 176-185) followed by
the code after it; the context is passed as in the C function, which makes no
call on it inside the loop. -/
def persistArgsLoop (_ctx : RedisModuleCtx) (chaining_operator : String) (n_keys : Int) :
    List String → Nat → Nat → AI_dict Nat → ParseResult Nat
  | [], argpos, number_loaded_keys, d => parseArgsEnd n_keys argpos number_loaded_keys d
  | arg_string :: rest, argpos, number_loaded_keys, d =>
    if (number_loaded_keys : Int) < n_keys then
      if strcasecmp arg_string chaining_operator = 0 then
        parseArgsEnd n_keys argpos number_loaded_keys d
      else
        persistArgsLoop _ctx chaining_operator n_keys rest (argpos + 1)
          (number_loaded_keys + 1) (AI_dictAdd d arg_string 1).1
    else
      parseArgsEnd n_keys argpos number_loaded_keys d

/-- The function `RAI_parseDAGPersistArgs(ctx, argv, argc, localContextDict, chaining_operator)`
(dag.c 157-191), with `argc = argv.length`. -/
def RAI_parseDAGPersistArgs (ctx : RedisModuleCtx) (argv : List String)
    (localContextDict : AI_dict Nat) (chaining_operator : String) : ParseResult Nat :=
  if argv.length < 3 then
    ⟨-1, localContextDict, [Effect.WrongArity]⟩
  else
    match (argv[1]?).bind RedisModule_StringToLongLong with
    | none => ⟨-1, localContextDict, [Effect.ReplyWithError invalidCountMsg]⟩
    | some n_keys =>
      if n_keys ≤ 0 then
        ⟨-1, localContextDict, [Effect.ReplyWithError invalidCountMsg]⟩
      else
        persistArgsLoop ctx chaining_operator n_keys (argv.drop 2) 2 0 localContextDict

/-! ## Reply materialisation -/

/-- The call `RAI_OpenKey_Tensor(ctx, keyname, &key, READ|WRITE)`: the status returned. -/
def RAI_OpenKey_Tensor (ctx : RedisModuleCtx) (keyname : String) : Int :=
  if ctx.openKeyFails keyname then REDISMODULE_ERR else REDISMODULE_OK

/-- The call `RedisModule_ModuleTypeSetValue(key, RedisAI_TensorType, tensor)`: the
status returned and the context afterwards.  A successful call makes the key
hold the tensor; a failed one leaves the store as it was. -/
def RedisModule_ModuleTypeSetValue (ctx : RedisModuleCtx) (keyname : String)
    (tensor : RAI_Tensor) : Int × RedisModuleCtx :=
  if ctx.setValueFails keyname then
    (REDISMODULE_ERR, ctx)
  else
    (REDISMODULE_OK,
      ⟨fun k => if k = keyname then some tensor else ctx.keyspace k,
        ctx.openKeyFails, ctx.setValueFails, ctx.blockedClientPrivateData⟩)

/-- Adds one to `rinfo->dag_reply_length`. -/
def incrReplyLength (ctx : RedisModuleCtx) : RedisModuleCtx :=
  ⟨ctx.keyspace, ctx.openKeyFails, ctx.setValueFails,
    ⟨ctx.blockedClientPrivateData.dagTensorsContext,
      ctx.blockedClientPrivateData.dagTensorsPersistentContext,
      ctx.blockedClientPrivateData.dag_reply_length + 1,
      ctx.blockedClientPrivateData.mctx,
      ctx.blockedClientPrivateData.status,
      ctx.blockedClientPrivateData.err,
      ctx.blockedClientPrivateData.duration_us,
      ctx.blockedClientPrivateData.client⟩⟩

/-- The "could not save" reply of dag.c 80 and 85. -/
def couldNotSaveMsg : String := "ERR could not save tensor"

/-- The "not used" reply of dag.c 93-94. -/
def notUsedMsg : String := "ERR specified persistent key that was not used on DAG"

/-- One pass through the body of the `while` loop of `RedisAI_DagRun_Reply`
(dag.c 69-96) for the persist entry `persist_entry`: the context afterwards
and the effects of the pass. -/
def dagRunReplyBody (ctx : RedisModuleCtx) (persist_entry : String × Nat) :
    RedisModuleCtx × List Effect :=
  let persist_key_name := persist_entry.1
  match AI_dictFind ctx.blockedClientPrivateData.dagTensorsContext persist_key_name with
  | some tensor_entry =>
    let tensor := tensor_entry.2
    let tensor_keyname := persist_key_name
    let status := RAI_OpenKey_Tensor ctx tensor_keyname
    if status = REDISMODULE_ERR then
      (incrReplyLength ctx,
        [Effect.OpenKey_Tensor tensor_keyname status,
         Effect.ReplyWithError couldNotSaveMsg,
         Effect.CloseKey tensor_keyname,
         Effect.ReplicateTensorSet tensor_keyname tensor])
    else
      let set := RedisModule_ModuleTypeSetValue ctx tensor_keyname tensor
      if set.1 ≠ REDISMODULE_OK then
        (incrReplyLength set.2,
          [Effect.OpenKey_Tensor tensor_keyname status,
           Effect.ModuleTypeSetValue tensor_keyname tensor set.1,
           Effect.ReplyWithError couldNotSaveMsg,
           Effect.CloseKey tensor_keyname,
           Effect.ReplicateTensorSet tensor_keyname tensor])
      else
        (set.2,
          [Effect.OpenKey_Tensor tensor_keyname status,
           Effect.ModuleTypeSetValue tensor_keyname tensor set.1,
           Effect.CloseKey tensor_keyname,
           Effect.ReplicateTensorSet tensor_keyname tensor])
  | none =>
    (incrReplyLength ctx, [Effect.ReplyWithError notUsedMsg])

/-- The `while` loop of `RedisAI_DagRun_Reply` (dag.c 68-98) over the entries
the iterator still has to deliver. -/
def dagRunReplyLoop : List (String × Nat) → RedisModuleCtx → RedisModuleCtx × List Effect
  | [], ctx => (ctx, [])
  | persist_entry :: rest, ctx =>
    let step := dagRunReplyBody ctx persist_entry
    let tail := dagRunReplyLoop rest step.1
    (tail.1, step.2 ++ tail.2)

/-- What `RedisAI_DagRun_Reply` leaves behind: the returned `int`, the context
(store and run descriptor) afterwards, and the trace of effects. -/
structure ReplyResult where
  ret : Int
  ctx : RedisModuleCtx
  out : List Effect

/-- The function `RedisAI_DagRun_Reply(ctx, argv, argc)` (dag.c 59-102); `argv` and `argc`
are not used by the function. -/
def RedisAI_DagRun_Reply (ctx : RedisModuleCtx) (_argv : List String) : ReplyResult :=
  let rinfo := ctx.blockedClientPrivateData
  let loop := dagRunReplyLoop rinfo.dagTensorsPersistentContext ctx
  ⟨REDISMODULE_OK, loop.1,
    loop.2 ++ [Effect.ReplySetArrayLength loop.1.blockedClientPrivateData.dag_reply_length]⟩

/-! ## The execution engine -/

/-- What one call of the backend run primitive leaves behind: the returned
status, the content of the `RAI_Error` it was handed, and the tensor it left
in each output position of batch 0 (`none` where it left none). -/
structure BackendOutcome where
  status : Int
  err : RAI_Error
  produced : Nat → Option RAI_Tensor

/-- The collaborators of `RedisAI_RunDag` outside `dag.c`: whether creating
the sub-context or its batch fails, what the backend does with the prepared
sub-context (`none` for a `NULL` context), and the two readings of `ustime()`
around the run. -/
structure ModelRuntime where
  createFails : Bool
  addBatchFails : Bool
  run : Option RAI_ModelRunCtx → BackendOutcome
  start : Int
  stop : Int

/-- Modelled from the spec: `RAI_ModelRunCtxCreate` (model.c is not part of
the sources), "a fresh, empty model-run sub-context bound to the same model";
`none` is the `NULL` of a creation that failed. -/
def RAI_ModelRunCtxCreate (rt : ModelRuntime) (model : Nat) : Option RAI_ModelRunCtx :=
  if rt.createFails then none else some ⟨model, []⟩

/-- Modelled from the spec: `RAI_ModelRunCtxAddBatch` (model.c is not part of
the sources), "allocate one batch slot in that sub-context": the context
afterwards and the id of the new batch.  Without a context, or when the
allocation fails, no batch is added and the id is `-1`. -/
def RAI_ModelRunCtxAddBatch (rt : ModelRuntime) (mctx : Option RAI_ModelRunCtx) :
    Option RAI_ModelRunCtx × Int :=
  match mctx with
  | none => (none, -1)
  | some c =>
    if rt.addBatchFails then (some c, -1)
    else (some ⟨c.model, c.batches ++ [⟨[], []⟩]⟩, (c.batches.length : Int))

/-- Modelled from the spec: `RAI_ModelRunCtxCopyBatch(dest, id_dest, src, id_src)`
(model.c is not part of the sources): the input tensor handles of the source
batch are added to the destination batch, handle by handle and without copying
data, and so are its output positions, each with no tensor yet.  A call
without a destination context or batch, or without the source batch, changes
nothing. -/
def RAI_ModelRunCtxCopyBatch (dest : Option RAI_ModelRunCtx) (id_dest : Int)
    (src : RAI_ModelRunCtx) (id_src : Nat) : Option RAI_ModelRunCtx :=
  match dest with
  | none => none
  | some d =>
    if id_dest < 0 then some d
    else
      match d.batches[id_dest.toNat]?, src.batches[id_src]? with
      | some old, some b =>
        some ⟨d.model, d.batches.set id_dest.toNat
          ⟨old.inputs ++ b.inputs, old.outputs ++ b.outputs.map (fun _ => none)⟩⟩
      | _, _ => some d

/-- The call `RAI_ModelRun(mctx, err)`: the returned status, the error left in
`err`, and the sub-context with the tensors the backend produced in the output
positions of batch 0. -/
def RAI_ModelRun (rt : ModelRuntime) (mctx : Option RAI_ModelRunCtx) :
    Int × RAI_Error × Option RAI_ModelRunCtx :=
  let outcome := rt.run mctx
  (outcome.status, outcome.err,
    match mctx with
    | none => none
    | some c =>
      match c.batches with
      | [] => some c
      | b :: bs =>
        some ⟨c.model, ⟨b.inputs, (List.range b.outputs.length).map outcome.produced⟩ :: bs⟩)

/-- Modelled from the spec: `RAI_ModelRunCtxNumOutputs` (model.c is not part of
the sources), "num_outputs(Ctx) -> n": the number of declared output positions,
those of batch 0; `0` when there is no context or no batch. -/
def RAI_ModelRunCtxNumOutputs (mctx : Option RAI_ModelRunCtx) : Nat :=
  match mctx with
  | none => 0
  | some c =>
    match c.batches with
    | [] => 0
    | b :: _ => b.outputs.length

/-- Modelled from the spec: `RAI_TensorGetShallowCopy` (tensor.c is not part of
the sources), "incrementing the count and returning a new handle, never
duplicating bytes": the handle of the same tensor. -/
def RAI_TensorGetShallowCopy (t : RAI_Tensor) : RAI_Tensor := t

/-- The call `RedisModule_Strdup(s)`: a copy of the string. -/
def RedisModule_Strdup (s : Option String) : Option String := s

/-- The calls `RedisAI_RunDag` makes on its collaborators, in the order made. -/
inductive RunEffect where
  /-- The call `RAI_ModelRunCtxCreate(model)` -/
  | ModelRunCtxCreate (model : Nat)
  /-- The call `RAI_ModelRunCtxAddBatch(mctx)` -/
  | ModelRunCtxAddBatch
  /-- The call `RAI_ModelRunCtxCopyBatch(mctx, id, rinfo->mctx, 0)` -/
  | ModelRunCtxCopyBatch
  /-- A reading of the clock, `ustime()` -/
  | ustime
  /-- The call `RAI_ModelRun(mctx, err)`, the backend run primitive -/
  | ModelRun
  /-- The call `RAI_TensorGetShallowCopy(tensor)` -/
  | TensorGetShallowCopy (t : RAI_Tensor)
  /-- The call `RedisModule_UnblockClient(client, privdata)` with the content
  of the descriptor `privdata` points to at the time of the call -/
  | UnblockClient (client : Nat) (privdata : RedisAI_RunInfo)
  deriving DecidableEq

/-- The read `mctx->batches[0].outputs[o].tensor` (dag.c 35); `none` is the
`NULL` tensor, also where there is no such position. -/
def outputTensor (mctx : Option RAI_ModelRunCtx) (o : Nat) : Option RAI_Tensor :=
  match mctx with
  | none => none
  | some c =>
    match c.batches with
    | [] => none
    | b :: _ => (b.outputs[o]?).join

/-- The write `mctx->batches[0].outputs[o].tensor = t` (dag.c 37 and 40); a
position that does not exist is not written. -/
def setOutputTensor (mctx : RAI_ModelRunCtx) (o : Nat) (t : Option RAI_Tensor) :
    RAI_ModelRunCtx :=
  match mctx.batches with
  | [] => mctx
  | b :: bs => ⟨mctx.model, ⟨b.inputs, b.outputs.set o t⟩ :: bs⟩

/-- The `for` loop of `RedisAI_RunDag` over the output positions (dag.c 34-42).
The first number is `noutputs - o`, so the test `o < noutputs` is the test
that it is not zero; the last argument is `rinfo->mctx`. -/
def runDagOutputsLoop (mctx : Option RAI_ModelRunCtx) :
    Nat → Nat → RAI_ModelRunCtx → RAI_ModelRunCtx × List RunEffect
  | 0, _, dst => (dst, [])
  | remaining + 1, o, dst =>
    match outputTensor mctx o with
    | some tensor =>
      let next := runDagOutputsLoop mctx remaining (o + 1)
        (setOutputTensor dst o (some (RAI_TensorGetShallowCopy tensor)))
      (next.1, RunEffect.TensorGetShallowCopy tensor :: next.2)
    | none =>
      runDagOutputsLoop mctx remaining (o + 1) (setOutputTensor dst o none)

/-- The transient sub-context as it is handed to the backend: created, given
one batch, and filled from batch 0 of the descriptor (dag.c 24-27). -/
def runDagSubContext (rt : ModelRuntime) (rinfo : RedisAI_RunInfo) :
    Option RAI_ModelRunCtx :=
  let mctx := RAI_ModelRunCtxCreate rt rinfo.mctx.model
  let added := RAI_ModelRunCtxAddBatch rt mctx
  let id := added.2
  RAI_ModelRunCtxCopyBatch added.1 id rinfo.mctx 0

/-- What `RedisAI_RunDag` leaves behind: the descriptor afterwards and the
trace of its calls (the function itself always returns `NULL`). -/
structure RunDagResult where
  rinfo : RedisAI_RunInfo
  out : List RunEffect

/-- The function `RedisAI_RunDag(rinfo)` (dag.c 20-57). -/
def RedisAI_RunDag (rt : ModelRuntime) (rinfo : RedisAI_RunInfo) : RunDagResult :=
  let mctx := runDagSubContext rt rinfo
  let start := rt.start
  let ran := RAI_ModelRun rt mctx
  let status := ran.1
  let err := ran.2.1
  let rtime := rt.stop - start
  let noutputs := RAI_ModelRunCtxNumOutputs ran.2.2
  let copied := runDagOutputsLoop ran.2.2 noutputs 0 rinfo.mctx
  let rinfo_err : RAI_Error :=
    if err.code ≠ RAI_OK then
      ⟨err.code, RedisModule_Strdup err.detail, RedisModule_Strdup err.detail_oneline⟩
    else
      ⟨err.code, none, none⟩
  let done : RedisAI_RunInfo :=
    ⟨rinfo.dagTensorsContext, rinfo.dagTensorsPersistentContext, rinfo.dag_reply_length,
      copied.1, status, some rinfo_err, rtime, rinfo.client⟩
  ⟨done,
    [RunEffect.ModelRunCtxCreate rinfo.mctx.model, RunEffect.ModelRunCtxAddBatch,
      RunEffect.ModelRunCtxCopyBatch, RunEffect.ustime, RunEffect.ModelRun, RunEffect.ustime]
      ++ copied.2
      ++ (match rinfo.client with
          | some client => [RunEffect.UnblockClient client done]
          | none => [])⟩


/-! ## Vocabulary of the properties -/

/-- Whether an effect is an entry of the client reply. -/
def isReplyEntry : Effect → Bool
  | Effect.WrongArity => true
  | Effect.ReplyWithError _ => true
  | _ => false

/-- The reply entries of a trace, in the order emitted. -/
def replyEntries (out : List Effect) : List Effect := out.filter isReplyEntry

/-- The keys looked up in the shared store, in the order looked up. -/
def storeLookups : List Effect → List String
  | [] => []
  | Effect.GetTensorFromKeyspace key :: rest => key :: storeLookups rest
  | _ :: rest => storeLookups rest

/-- The spec's `ArityError` ("malformed counts/too few tokens") as the parsers
surface it: the wrong-arity reply or the invalid-count error reply. -/
def isArityReply (e : Effect) : Bool :=
  e == Effect.WrongArity || e == Effect.ReplyWithError invalidCountMsg

/-- The key tokens of a block: what follows the command name and the count. -/
def keyTokens (argv : List String) : List String := argv.drop 2


/-- The reply entries owed for one persisted name, in the words of the spec:
"specified persistent key that was not used" when the name is absent from the
scoped tensor context, "could not save tensor" when it is present and the open
or the store fails, nothing when it is committed. -/
def expectedReplyFor (scope : AI_dict RAI_Tensor) (openFails setFails : String → Bool)
    (name : String) : List Effect :=
  match AI_dictFind scope name with
  | none => [Effect.ReplyWithError notUsedMsg]
  | some _ =>
    if openFails name || setFails name then [Effect.ReplyWithError couldNotSaveMsg] else []

/-- Whether a persisted name ends in an error entry: it is absent from the
scope, or its open or its store fails. -/
def persistFails (scope : AI_dict RAI_Tensor) (openFails setFails : String → Bool)
    (name : String) : Bool :=
  (AI_dictFind scope name).isNone || openFails name || setFails name

/-- The "set tensor" effects replicated, in the order replicated. -/
def replicatedSets : List Effect → List (String × RAI_Tensor)
  | [] => []
  | Effect.ReplicateTensorSet key t :: rest => (key, t) :: replicatedSets rest
  | _ :: rest => replicatedSets rest

/-- The store commits that succeeded, in the order made. -/
def committedSets : List Effect → List (String × RAI_Tensor)
  | [] => []
  | Effect.ModuleTypeSetValue key t status :: rest =>
    if status = REDISMODULE_OK then (key, t) :: committedSets rest else committedSets rest
  | _ :: rest => committedSets rest

/-- A store with tensors under `x` and `y` and an empty run descriptor. -/
def ctxXY : RedisModuleCtx :=
  ⟨fun k => if k = "x" then some ⟨1⟩ else if k = "y" then some ⟨2⟩ else none,
    fun _ => false, fun _ => false, ⟨[], [], 0, ⟨0, []⟩, 0, none, 0, none⟩⟩

/-- The scenario of the spec: persist set `a, b, c`, scope with `a` and `c`,
the store commit fails for `c`, and the reply length starts at `0`. -/
def ctxABC : RedisModuleCtx :=
  ⟨fun _ => none, fun _ => false, fun k => k == "c",
    ⟨[("a", ⟨10⟩), ("c", ⟨30⟩)], [("a", 1), ("b", 1), ("c", 1)], 0,
      ⟨0, []⟩, 0, none, 0, none⟩⟩

/-- A run whose only persisted name `a` is in scope while opening the key `a`
fails. -/
def ctxOpenFails : RedisModuleCtx :=
  ⟨fun _ => none, fun k => k == "a", fun _ => false,
    ⟨[("a", ⟨10⟩)], [("a", 1)], 0, ⟨0, []⟩, 0, none, 0, none⟩⟩

/-- The content of output position `o` of batch 0 of a context: `some none`
for the empty marker, `none` where there is no such position. -/
def batch0Output (mctx : RAI_ModelRunCtx) (o : Nat) : Option (Option RAI_Tensor) :=
  match mctx.batches with
  | [] => none
  | b :: _ => b.outputs[o]?

/-- Whether a call is the backend run primitive. -/
def isModelRun : RunEffect → Bool
  | RunEffect.ModelRun => true
  | _ => false

/-- Whether a call resumes the suspended caller. -/
def isUnblockClient : RunEffect → Bool
  | RunEffect.UnblockClient _ _ => true
  | _ => false

/-- A descriptor ready to run: model `7`, one input, two declared outputs that
still hold older content, and the blocked client `5`. -/
def rinfoReady : RedisAI_RunInfo :=
  ⟨[], [], 0, ⟨7, [⟨[some ⟨1⟩], [some ⟨98⟩, some ⟨99⟩]⟩]⟩, 0, none, 0, some 5⟩

/-- A runtime whose backend fails with the detail "shape mismatch" and
produces no tensor; the clock reads `100` and then `250`. -/
def rtShapeMismatch : ModelRuntime :=
  ⟨false, false,
    fun _ => ⟨REDISMODULE_ERR, ⟨1, some "shape mismatch", some "shape mismatch"⟩,
      fun _ => none⟩,
    100, 250⟩

/-- A runtime whose backend succeeds and produces tensor `42` at position `0`
and nothing at position `1`. -/
def rtProducesFirst : ModelRuntime :=
  ⟨false, false,
    fun _ => ⟨REDISMODULE_OK, ⟨RAI_OK, none, none⟩,
      fun o => if o = 0 then some ⟨42⟩ else none⟩,
    100, 250⟩

/-- A runtime in which creating the sub-context fails, while the backend run
primitive, once called, reports success. -/
def rtCreateFails : ModelRuntime :=
  ⟨true, false, fun _ => ⟨REDISMODULE_OK, ⟨RAI_OK, none, none⟩, fun _ => none⟩, 100, 250⟩

/-- A runtime whose backend returns the status `REDISMODULE_OK` while leaving
an error with the code `3` and the detail "shape mismatch". -/
def rtOkWithErrorCode : ModelRuntime :=
  ⟨false, false,
    fun _ => ⟨REDISMODULE_OK, ⟨3, some "shape mismatch", some "shape mismatch"⟩,
      fun _ => none⟩,
    100, 250⟩

/-- The tensor committed to the store for a persisted name: the one the scope
holds under that name, when the name is in scope and neither the open nor the
store fails. -/
def committedTensor (scope : AI_dict RAI_Tensor) (openFails setFails : String → Bool)
    (name : String) : Option RAI_Tensor :=
  match AI_dictFind scope name with
  | none => none
  | some e => if openFails name || setFails name then none else some e.2

/-- The keys closed with `RedisModule_CloseKey`, in the order closed. -/
def closedKeys : List Effect → List String
  | [] => []
  | Effect.CloseKey key :: rest => key :: closedKeys rest
  | _ :: rest => closedKeys rest

/-- The keys whose open succeeded, in the order opened. -/
def openedKeys : List Effect → List String
  | [] => []
  | Effect.OpenKey_Tensor key status :: rest =>
    if status = REDISMODULE_OK then key :: openedKeys rest else openedKeys rest
  | _ :: rest => openedKeys rest


/-! ## Lemmas on the dictionary -/

theorem AI_dictFind_append_none {V : Type} (d : AI_dict V) (k k' : String) (v : V)
    (hd : AI_dictFind d k' = none) (hne : k ≠ k') :
    AI_dictFind (d ++ [(k, v)]) k' = none := by
  unfold AI_dictFind at *
  rw [List.find?_append, hd]
  simp [hne]

theorem AI_dictAdd_fresh {V : Type} (d : AI_dict V) (k : String) (v : V)
    (hd : AI_dictFind d k = none) : (AI_dictAdd d k v).1 = d ++ [(k, v)] := by
  unfold AI_dictAdd
  rw [hd]

/-! ## The LOAD loop on a block whose keys all resolve -/

theorem loadArgsLoop_all_loaded (ctx : RedisModuleCtx) (sep : String) (n_keys : Int) :
    ∀ (m : Nat) (toks : List String) (argpos loaded : Nat) (d : AI_dict RAI_Tensor),
      (loaded : Int) + m = n_keys → m ≤ toks.length →
      (∀ k ∈ toks.take m, strcasecmp k sep ≠ 0) →
      (∀ k ∈ toks.take m, (ctx.keyspace k).isSome) →
      (∀ k ∈ toks.take m, AI_dictFind d k = none) →
      (toks.take m).Nodup →
      (loadArgsLoop ctx sep n_keys toks argpos loaded d).ret = ((argpos + m : Nat) : Int) ∧
      (loadArgsLoop ctx sep n_keys toks argpos loaded d).dict.map (fun e => (e.1, some e.2))
        = d.map (fun e => (e.1, some e.2)) ++ (toks.take m).map (fun k => (k, ctx.keyspace k)) ∧
      (loadArgsLoop ctx sep n_keys toks argpos loaded d).out
        = (toks.take m).map Effect.GetTensorFromKeyspace := by
  intro m
  induction m with
  | zero =>
    intro toks argpos loaded d hn _ _ _ _ _
    have hn' : (loaded : Int) = n_keys := by simpa using hn
    cases toks with
    | nil => simp [loadArgsLoop, parseArgsEnd, hn']
    | cons k rest => simp [loadArgsLoop, parseArgsEnd, hn']
  | succ m ih =>
    intro toks argpos loaded d hn hlen hsep hstore hfresh hnodup
    cases toks with
    | nil => simp at hlen
    | cons k rest =>
      simp only [List.take_succ_cons, List.mem_cons, forall_eq_or_imp, List.nodup_cons] at *
      have hlt : (loaded : Int) < n_keys := by omega
      obtain ⟨t, ht⟩ := Option.isSome_iff_exists.mp hstore.1
      have hadd := AI_dictAdd_fresh d k t hfresh.1
      have hfresh' : ∀ k' ∈ rest.take m, AI_dictFind (d ++ [(k, t)]) k' = none := by
        intro k' hk'
        apply AI_dictFind_append_none _ _ _ _ (hfresh.2 k' hk')
        rintro rfl
        exact hnodup.1 hk'
      have h := ih rest (argpos + 1) (loaded + 1) (d ++ [(k, t)]) (by push_cast; omega)
        (by simpa using hlen) hsep.2 hstore.2 hfresh' hnodup.2
      simp only [loadArgsLoop, hlt, if_true, hsep.1, if_false, RAI_GetTensorFromKeyspace, ht, hadd,
        ParseResult.after]
      refine ⟨?_, ?_, ?_⟩
      · rw [h.1]; push_cast; omega
      · rw [h.2.1]; simp [ht]
      · rw [h.2.2]; simp

/-- C1: a valid LOAD block (a positive declared count `n`, at least `n` key
tokens after it, the first `n` of them pairwise distinct, none of them the
chaining separator under the parser's own comparison, each present in the
shared store) parsed into an empty scoped tensor context leaves exactly `n`
entries, keyed by `argv[2..n+1]` in that order, each mapped to the tensor the
store holds under that name; the parse returns the position `n + 2`. -/
theorem load_valid_block_fills_context (ctx : RedisModuleCtx) (argv : List String)
    (sep : String) (n : Nat)
    (hcount : (argv[1]?).bind RedisModule_StringToLongLong = some (n : Int))
    (hpos : 0 < n) (hlen : n + 2 ≤ argv.length)
    (hdistinct : ((keyTokens argv).take n).Nodup)
    (hsep : ∀ k ∈ (keyTokens argv).take n, strcasecmp k sep ≠ 0)
    (hstore : ∀ k ∈ (keyTokens argv).take n, (ctx.keyspace k).isSome) :
    (RAI_parseDAGLoadArgs ctx argv [] sep).dict.length = n ∧
    AI_dictKeys (RAI_parseDAGLoadArgs ctx argv [] sep).dict = (keyTokens argv).take n ∧
    (RAI_parseDAGLoadArgs ctx argv [] sep).dict.map (fun e => (e.1, some e.2))
      = ((keyTokens argv).take n).map (fun k => (k, ctx.keyspace k)) ∧
    (RAI_parseDAGLoadArgs ctx argv [] sep).ret = (n : Int) + 2 := by
  have hargc : ¬ argv.length < 3 := by omega
  have hn0 : ¬ ((n : Int) ≤ 0) := by omega
  have h := loadArgsLoop_all_loaded ctx sep (n : Int) n (keyTokens argv) 2 0 []
    (by simp) (by simp [keyTokens]; omega) hsep hstore (by intros; rfl) hdistinct
  have hrun : RAI_parseDAGLoadArgs ctx argv [] sep
      = loadArgsLoop ctx sep (n : Int) (keyTokens argv) 2 0 [] := by
    simp only [RAI_parseDAGLoadArgs, hargc, if_false, hcount, hn0, keyTokens]
  rw [hrun]
  obtain ⟨h1, h2, _⟩ := h
  simp only [List.map_nil, List.nil_append] at h2
  have hkeys : AI_dictKeys (loadArgsLoop ctx sep (n : Int) (keyTokens argv) 2 0 []).dict
      = (keyTokens argv).take n := by
    have := congrArg (List.map Prod.fst) h2
    simpa [AI_dictKeys, List.map_map, Function.comp_def] using this
  refine ⟨?_, hkeys, h2, ?_⟩
  · have := congrArg List.length hkeys
    simp only [AI_dictKeys, List.length_map, List.length_take] at this
    rw [this]; simp [keyTokens]; omega
  · rw [h1]; push_cast; omega

theorem load_valid_block_fills_context_witness :
    (RAI_parseDAGLoadArgs ctxXY ["LOAD", "2", "x", "y", "|>", "z"] [] "|>").dict.length = 2 ∧
    AI_dictKeys (RAI_parseDAGLoadArgs ctxXY ["LOAD", "2", "x", "y", "|>", "z"] [] "|>").dict
      = ["x", "y"] ∧
    (RAI_parseDAGLoadArgs ctxXY ["LOAD", "2", "x", "y", "|>", "z"] [] "|>").dict.map
        (fun e => (e.1, some e.2))
      = [("x", some ⟨1⟩), ("y", some ⟨2⟩)] ∧
    (RAI_parseDAGLoadArgs ctxXY ["LOAD", "2", "x", "y", "|>", "z"] [] "|>").ret = 4 :=
  load_valid_block_fills_context ctxXY ["LOAD", "2", "x", "y", "|>", "z"] "|>" 2
    (by decide) (by decide) (by decide) (by decide) (by decide) (by decide)


/-! ## The reply loop -/

theorem dagRunReplyBody_frame (ctx : RedisModuleCtx) (e : String × Nat) :
    (dagRunReplyBody ctx e).1.openKeyFails = ctx.openKeyFails ∧
    (dagRunReplyBody ctx e).1.setValueFails = ctx.setValueFails ∧
    (dagRunReplyBody ctx e).1.blockedClientPrivateData.dagTensorsContext
      = ctx.blockedClientPrivateData.dagTensorsContext ∧
    (dagRunReplyBody ctx e).1.blockedClientPrivateData.dagTensorsPersistentContext
      = ctx.blockedClientPrivateData.dagTensorsPersistentContext := by
  rcases hf : AI_dictFind ctx.blockedClientPrivateData.dagTensorsContext e.1 with _ | te
  · simp [dagRunReplyBody, hf, incrReplyLength]
  · rcases ho : ctx.openKeyFails e.1 <;> rcases hs : ctx.setValueFails e.1 <;>
      simp [dagRunReplyBody, hf, RAI_OpenKey_Tensor, RedisModule_ModuleTypeSetValue, ho, hs,
        incrReplyLength, REDISMODULE_ERR, REDISMODULE_OK]

theorem dagRunReplyBody_replies (ctx : RedisModuleCtx) (e : String × Nat) :
    replyEntries (dagRunReplyBody ctx e).2
      = expectedReplyFor ctx.blockedClientPrivateData.dagTensorsContext
          ctx.openKeyFails ctx.setValueFails e.1 ∧
    (dagRunReplyBody ctx e).1.blockedClientPrivateData.dag_reply_length
      = ctx.blockedClientPrivateData.dag_reply_length
        + ((replyEntries (dagRunReplyBody ctx e).2).length : Int) ∧
    (∀ x ∈ (dagRunReplyBody ctx e).2, ∀ l, x ≠ Effect.ReplySetArrayLength l) := by
  rcases hf : AI_dictFind ctx.blockedClientPrivateData.dagTensorsContext e.1 with _ | te
  · simp [dagRunReplyBody, expectedReplyFor, hf, incrReplyLength, replyEntries, isReplyEntry]
  · rcases ho : ctx.openKeyFails e.1 <;> rcases hs : ctx.setValueFails e.1 <;>
      simp [dagRunReplyBody, expectedReplyFor, hf, RAI_OpenKey_Tensor,
        RedisModule_ModuleTypeSetValue, ho, hs, incrReplyLength, REDISMODULE_ERR,
        REDISMODULE_OK, replyEntries, isReplyEntry]

theorem dagRunReplyLoop_frame :
    ∀ (entries : List (String × Nat)) (ctx : RedisModuleCtx),
      (dagRunReplyLoop entries ctx).1.openKeyFails = ctx.openKeyFails ∧
      (dagRunReplyLoop entries ctx).1.setValueFails = ctx.setValueFails ∧
      (dagRunReplyLoop entries ctx).1.blockedClientPrivateData.dagTensorsContext
        = ctx.blockedClientPrivateData.dagTensorsContext ∧
      (dagRunReplyLoop entries ctx).1.blockedClientPrivateData.dagTensorsPersistentContext
        = ctx.blockedClientPrivateData.dagTensorsPersistentContext := by
  intro entries
  induction entries with
  | nil => intro ctx; simp [dagRunReplyLoop]
  | cons e rest ih =>
    intro ctx
    obtain ⟨h1, h2, h3, h4⟩ := ih (dagRunReplyBody ctx e).1
    obtain ⟨b1, b2, b3, b4⟩ := dagRunReplyBody_frame ctx e
    simp only [dagRunReplyLoop]
    exact ⟨h1.trans b1, h2.trans b2, h3.trans b3, h4.trans b4⟩

theorem dagRunReplyLoop_replies :
    ∀ (entries : List (String × Nat)) (ctx : RedisModuleCtx),
      replyEntries (dagRunReplyLoop entries ctx).2
        = (AI_dictKeys entries).flatMap
            (expectedReplyFor ctx.blockedClientPrivateData.dagTensorsContext
              ctx.openKeyFails ctx.setValueFails) ∧
      (dagRunReplyLoop entries ctx).1.blockedClientPrivateData.dag_reply_length
        = ctx.blockedClientPrivateData.dag_reply_length
          + ((replyEntries (dagRunReplyLoop entries ctx).2).length : Int) ∧
      (∀ x ∈ (dagRunReplyLoop entries ctx).2, ∀ l, x ≠ Effect.ReplySetArrayLength l) := by
  intro entries
  induction entries with
  | nil => intro ctx; simp [dagRunReplyLoop, replyEntries, AI_dictKeys]
  | cons e rest ih =>
    intro ctx
    obtain ⟨h1, h2, h3⟩ := ih (dagRunReplyBody ctx e).1
    obtain ⟨b1, b2, b3⟩ := dagRunReplyBody_replies ctx e
    obtain ⟨f1, f2, f3, _⟩ := dagRunReplyBody_frame ctx e
    rw [f1, f2, f3] at h1
    simp only [dagRunReplyLoop]
    refine ⟨?_, ?_, ?_⟩
    · simp only [replyEntries, List.filter_append, AI_dictKeys, List.map_cons,
        List.flatMap_cons] at *
      rw [h1, b1]
    · rw [h2, b2]
      simp only [replyEntries, List.filter_append, List.length_append]
      push_cast
      omega
    · intro x hx
      rcases List.mem_append.mp hx with hx | hx
      · exact b3 x hx
      · exact h3 x hx

theorem expectedReplyFor_length (scope : AI_dict RAI_Tensor) (openFails setFails : String → Bool)
    (names : List String) :
    (names.flatMap (expectedReplyFor scope openFails setFails)).length
      = (names.filter (persistFails scope openFails setFails)).length := by
  induction names with
  | nil => simp
  | cons k rest ih =>
    simp only [List.flatMap_cons, List.length_append, ih, List.filter_cons]
    unfold expectedReplyFor persistFails
    cases AI_dictFind scope k <;> cases openFails k <;> cases setFails k <;> simp <;> omega

/-- C2: `RedisAI_DagRun_Reply` goes through every name of the persist set in
iteration order, and the reply entries it emits are, name after name, one
"not used" error for a name absent from the scoped tensor context, one "could
not save tensor" error for a name present whose open or store fails, and
nothing for a name that is committed; no name is skipped after a failure. -/
theorem reply_entries_per_persisted_name (ctx : RedisModuleCtx) (argv : List String) :
    replyEntries (RedisAI_DagRun_Reply ctx argv).out
      = (AI_dictKeys ctx.blockedClientPrivateData.dagTensorsPersistentContext).flatMap
          (expectedReplyFor ctx.blockedClientPrivateData.dagTensorsContext
            ctx.openKeyFails ctx.setValueFails) := by
  obtain ⟨h1, _, _⟩ :=
    dagRunReplyLoop_replies ctx.blockedClientPrivateData.dagTensorsPersistentContext ctx
  simp only [RedisAI_DagRun_Reply, replyEntries, List.filter_append] at *
  rw [h1]
  simp [isReplyEntry]

theorem reply_entries_per_persisted_name_witness :
    replyEntries (RedisAI_DagRun_Reply ctxABC []).out
      = [Effect.ReplyWithError notUsedMsg, Effect.ReplyWithError couldNotSaveMsg] :=
  (reply_entries_per_persisted_name ctxABC []).trans (by decide)

/-- C3: when `dag_reply_length` is `r0` on entry, after `RedisAI_DagRun_Reply`
it is `r0` plus the number of error entries emitted in the loop, which is the
number of persisted names that were absent from scope or failed to commit; the
array length is declared with that final value, once, as the last effect of
the call. -/
theorem reply_length_counts_error_entries (ctx : RedisModuleCtx) (argv : List String) :
    (RedisAI_DagRun_Reply ctx argv).ctx.blockedClientPrivateData.dag_reply_length
      = ctx.blockedClientPrivateData.dag_reply_length
        + ((replyEntries (RedisAI_DagRun_Reply ctx argv).out).length : Int) ∧
    (replyEntries (RedisAI_DagRun_Reply ctx argv).out).length
      = ((AI_dictKeys ctx.blockedClientPrivateData.dagTensorsPersistentContext).filter
          (persistFails ctx.blockedClientPrivateData.dagTensorsContext
            ctx.openKeyFails ctx.setValueFails)).length ∧
    ∃ loopOut, (RedisAI_DagRun_Reply ctx argv).out
        = loopOut ++ [Effect.ReplySetArrayLength
            (ctx.blockedClientPrivateData.dag_reply_length
              + ((replyEntries (RedisAI_DagRun_Reply ctx argv).out).length : Int))] ∧
      ∀ x ∈ loopOut, ∀ l, x ≠ Effect.ReplySetArrayLength l := by
  obtain ⟨h1, h2, h3⟩ :=
    dagRunReplyLoop_replies ctx.blockedClientPrivateData.dagTensorsPersistentContext ctx
  have hout : replyEntries (RedisAI_DagRun_Reply ctx argv).out
      = replyEntries (dagRunReplyLoop
          ctx.blockedClientPrivateData.dagTensorsPersistentContext ctx).2 := by
    simp [RedisAI_DagRun_Reply, replyEntries, List.filter_append, isReplyEntry]
  rw [hout]
  refine ⟨h2, ?_, _, ?_, h3⟩
  · rw [h1, expectedReplyFor_length]
  · simp only [RedisAI_DagRun_Reply]
    rw [h2]

theorem reply_length_counts_error_entries_witness :
    (RedisAI_DagRun_Reply ctxABC []).ctx.blockedClientPrivateData.dag_reply_length = 2 ∧
    replyEntries (RedisAI_DagRun_Reply ctxABC []).out
      = [Effect.ReplyWithError notUsedMsg, Effect.ReplyWithError couldNotSaveMsg] ∧
    (RedisAI_DagRun_Reply ctxABC []).out.getLast? = some (Effect.ReplySetArrayLength 2) :=
  ⟨(reply_length_counts_error_entries ctxABC []).1.trans (by decide), by decide, by decide⟩

/-- C4 (evaluation at the failing input): with the single persisted name `a`
in scope and the open of key `a` failing, nothing is committed and the store
still has no tensor under `a`, yet the "set tensor" effect for `a` is
replicated, after the "could not save tensor" error. -/
theorem reply_replicates_after_failed_open :
    (RedisAI_DagRun_Reply ctxOpenFails []).out
      = [Effect.OpenKey_Tensor "a" REDISMODULE_ERR,
         Effect.ReplyWithError couldNotSaveMsg,
         Effect.CloseKey "a",
         Effect.ReplicateTensorSet "a" ⟨10⟩,
         Effect.ReplySetArrayLength 1] ∧
    committedSets (RedisAI_DagRun_Reply ctxOpenFails []).out = [] ∧
    replicatedSets (RedisAI_DagRun_Reply ctxOpenFails []).out = [("a", ⟨10⟩)] ∧
    (RedisAI_DagRun_Reply ctxOpenFails []).ctx.keyspace "a" = none := by
  decide


/-! ## The LOAD loop on blocks that fail -/

theorem isReplyEntry_of_isArityReply (e : Effect) (h : isArityReply e = true) :
    isReplyEntry e = true := by
  cases e <;> simp_all [isArityReply, isReplyEntry]

theorem getLast?_cons_of_some {α : Type} (a x : α) (l : List α) (h : l.getLast? = some x) :
    (a :: l).getLast? = some x := by
  cases l with
  | nil => simp at h
  | cons b l => rw [List.getLast?_cons_cons]; exact h

theorem loadArgsLoop_done (ctx : RedisModuleCtx) (sep : String) (n_keys : Int)
    (toks : List String) (argpos loaded : Nat) (d : AI_dict RAI_Tensor)
    (h : ¬ ((loaded : Int) < n_keys)) :
    loadArgsLoop ctx sep n_keys toks argpos loaded d = parseArgsEnd n_keys argpos loaded d := by
  cases toks with
  | nil => rfl
  | cons k rest => simp only [loadArgsLoop, h, if_false]

theorem loadArgsLoop_sep (ctx : RedisModuleCtx) (sep : String) (n_keys : Int)
    (k : String) (rest : List String) (argpos loaded : Nat) (d : AI_dict RAI_Tensor)
    (h : (loaded : Int) < n_keys) (hk : strcasecmp k sep = 0) :
    loadArgsLoop ctx sep n_keys (k :: rest) argpos loaded d
      = parseArgsEnd n_keys argpos loaded d := by
  simp only [loadArgsLoop, h, if_true, hk]

theorem loadArgsLoop_miss (ctx : RedisModuleCtx) (sep : String) (n_keys : Int)
    (k : String) (rest : List String) (argpos loaded : Nat) (d : AI_dict RAI_Tensor)
    (h : (loaded : Int) < n_keys) (hk : strcasecmp k sep ≠ 0) (hm : ctx.keyspace k = none) :
    loadArgsLoop ctx sep n_keys (k :: rest) argpos loaded d
      = ⟨-1, d, [Effect.GetTensorFromKeyspace k, Effect.Log "warning" (loadWarning k)]⟩ := by
  simp only [loadArgsLoop, h, if_true, hk, if_false, RAI_GetTensorFromKeyspace, hm]

theorem loadArgsLoop_hit (ctx : RedisModuleCtx) (sep : String) (n_keys : Int)
    (k : String) (rest : List String) (argpos loaded : Nat) (d : AI_dict RAI_Tensor)
    (t : RAI_Tensor)
    (h : (loaded : Int) < n_keys) (hk : strcasecmp k sep ≠ 0) (hm : ctx.keyspace k = some t) :
    loadArgsLoop ctx sep n_keys (k :: rest) argpos loaded d
      = ⟨(loadArgsLoop ctx sep n_keys rest (argpos + 1) (loaded + 1) (AI_dictAdd d k t).1).ret,
         (loadArgsLoop ctx sep n_keys rest (argpos + 1) (loaded + 1) (AI_dictAdd d k t).1).dict,
         Effect.GetTensorFromKeyspace k ::
           (loadArgsLoop ctx sep n_keys rest (argpos + 1) (loaded + 1)
             (AI_dictAdd d k t).1).out⟩ := by
  simp only [loadArgsLoop, h, if_true, hk, if_false, RAI_GetTensorFromKeyspace, hm,
    ParseResult.after]

theorem parseArgsEnd_short {V : Type} (n_keys : Int) (argpos loaded : Nat) (d : AI_dict V)
    (h : (loaded : Int) ≠ n_keys) :
    parseArgsEnd n_keys argpos loaded d = ⟨-1, d, [Effect.WrongArity]⟩ := by
  simp only [parseArgsEnd, h, ne_eq, not_false_eq_true, if_true]

theorem parseArgsEnd_full {V : Type} (n_keys : Int) (argpos loaded : Nat) (d : AI_dict V)
    (h : (loaded : Int) = n_keys) :
    parseArgsEnd n_keys argpos loaded d = ⟨(argpos : Int), d, []⟩ := by
  simp only [parseArgsEnd, h, ne_eq, not_true_eq_false, if_false]

theorem loadArgsLoop_missing_key (ctx : RedisModuleCtx) (sep : String) (n_keys : Int) :
    ∀ (pre : List String) (k : String) (post : List String) (argpos loaded : Nat)
      (d : AI_dict RAI_Tensor),
      (loaded : Int) + pre.length < n_keys →
      (∀ x ∈ pre, strcasecmp x sep ≠ 0) → strcasecmp k sep ≠ 0 → ctx.keyspace k = none →
      (loadArgsLoop ctx sep n_keys (pre ++ k :: post) argpos loaded d).ret = -1 ∧
      (∀ e ∈ (loadArgsLoop ctx sep n_keys (pre ++ k :: post) argpos loaded d).out,
        isReplyEntry e = false) ∧
      ∃ k', ctx.keyspace k' = none ∧
        (loadArgsLoop ctx sep n_keys (pre ++ k :: post) argpos loaded d).out.getLast?
          = some (Effect.Log "warning" (loadWarning k')) := by
  intro pre
  induction pre with
  | nil =>
    intro k post argpos loaded d hlt _ hk hmiss
    have hlt' : (loaded : Int) < n_keys := by simpa using hlt
    rw [List.nil_append, loadArgsLoop_miss ctx sep n_keys k post argpos loaded d hlt' hk hmiss]
    exact ⟨rfl, by simp [isReplyEntry], k, hmiss, rfl⟩
  | cons p pre ih =>
    intro k post argpos loaded d hlt hpre hk hmiss
    simp only [List.length_cons, List.mem_cons, forall_eq_or_imp] at hlt hpre
    have hlt' : (loaded : Int) < n_keys := by push_cast at hlt; omega
    rcases hp : ctx.keyspace p with _ | t
    · rw [List.cons_append,
        loadArgsLoop_miss ctx sep n_keys p _ argpos loaded d hlt' hpre.1 hp]
      exact ⟨rfl, by simp [isReplyEntry], p, hp, rfl⟩
    · obtain ⟨h1, h2, k', hk', h3⟩ := ih k post (argpos + 1) (loaded + 1)
        (AI_dictAdd d p t).1 (by push_cast at hlt ⊢; omega) hpre.2 hk hmiss
      rw [List.cons_append,
        loadArgsLoop_hit ctx sep n_keys p _ argpos loaded d t hlt' hpre.1 hp]
      refine ⟨h1, ?_, k', hk', getLast?_cons_of_some _ _ _ h3⟩
      intro e he
      rcases List.mem_cons.mp he with rfl | he
      · rfl
      · exact h2 e he

theorem takeWhile_length_le_of_not {α : Type} (p : α → Bool) :
    ∀ (l : List α) (i : Nat) (x : α), l[i]? = some x → p x = false →
      (l.takeWhile p).length ≤ i := by
  intro l
  induction l with
  | nil => intro i x h; simp at h
  | cons a l ih =>
    intro i x h hx
    cases i with
    | zero =>
      simp only [List.getElem?_cons_zero, Option.some.injEq] at h
      subst h
      simp [List.takeWhile_cons, hx]
    | succ i =>
      simp only [List.getElem?_cons_succ] at h
      have := ih i x h hx
      rw [List.takeWhile_cons]
      split
      · simp; omega
      · simp

theorem loadArgsLoop_too_few (ctx : RedisModuleCtx) (sep : String) (n_keys : Int) :
    ∀ (toks : List String) (m argpos loaded : Nat) (d : AI_dict RAI_Tensor),
      (loaded : Int) + m = n_keys →
      ((toks.take m).takeWhile (fun k => decide (strcasecmp k sep ≠ 0))).length < m →
      (∀ k ∈ (toks.take m).takeWhile (fun k => decide (strcasecmp k sep ≠ 0)),
        (ctx.keyspace k).isSome) →
      (loadArgsLoop ctx sep n_keys toks argpos loaded d).ret = -1 ∧
      (loadArgsLoop ctx sep n_keys toks argpos loaded d).out
        = ((toks.take m).takeWhile (fun k => decide (strcasecmp k sep ≠ 0))).map
            Effect.GetTensorFromKeyspace ++ [Effect.WrongArity] := by
  intro toks
  induction toks with
  | nil =>
    intro m argpos loaded d hn hlt _
    simp only [List.take_nil, List.takeWhile_nil, List.length_nil] at hlt
    have hne : (loaded : Int) ≠ n_keys := by omega
    simp only [loadArgsLoop, parseArgsEnd_short n_keys argpos loaded d hne, List.take_nil,
      List.takeWhile_nil, List.map_nil, List.nil_append, and_self]
  | cons k rest ih =>
    intro m argpos loaded d hn hlt hstore
    cases m with
    | zero => simp at hlt
    | succ m =>
      have hlt' : (loaded : Int) < n_keys := by push_cast at hn; omega
      have hne : (loaded : Int) ≠ n_keys := by omega
      by_cases hk : strcasecmp k sep = 0
      · have hk' : decide (strcasecmp k sep ≠ 0) = false := by simp [hk]
        rw [loadArgsLoop_sep ctx sep n_keys k rest argpos loaded d hlt' hk,
          parseArgsEnd_short n_keys argpos loaded d hne, List.take_succ_cons,
          List.takeWhile_cons, hk']
        simp
      · have hk' : decide (strcasecmp k sep ≠ 0) = true := by simp [hk]
        rw [List.take_succ_cons, List.takeWhile_cons, hk'] at hlt hstore
        simp only [if_true, List.length_cons, List.mem_cons, forall_eq_or_imp] at hlt hstore
        obtain ⟨t, ht⟩ := Option.isSome_iff_exists.mp hstore.1
        obtain ⟨h1, h2⟩ := ih m (argpos + 1) (loaded + 1) (AI_dictAdd d k t).1
          (by push_cast at hn ⊢; omega) (by omega) hstore.2
        rw [loadArgsLoop_hit ctx sep n_keys k rest argpos loaded d t hlt' hk ht,
          List.take_succ_cons, List.takeWhile_cons, hk']
        simp only [if_true, List.map_cons, List.cons_append]
        exact ⟨h1, by rw [h2]⟩

/-- C5: in a LOAD block with a valid count `n`, when a key token that is
reached (fewer than `n` key tokens before it, neither it nor any of them the
separator) is missing from the shared store, `RAI_parseDAGLoadArgs` fails the
key-not-found way: it returns `-1`, not a position, the last thing it does is
log the warning for a missing key, and it emits no reply entry at all, in
particular neither form of the arity error. -/
theorem load_missing_key_fails (ctx : RedisModuleCtx) (argv : List String)
    (d : AI_dict RAI_Tensor) (sep : String) (n : Int) (pre post : List String) (k : String)
    (hcount : (argv[1]?).bind RedisModule_StringToLongLong = some n)
    (hsplit : keyTokens argv = pre ++ k :: post)
    (hreach : (pre.length : Int) < n)
    (hnosep : ∀ x ∈ pre ++ [k], strcasecmp x sep ≠ 0)
    (hmiss : ctx.keyspace k = none) :
    (RAI_parseDAGLoadArgs ctx argv d sep).ret = -1 ∧
    ¬ (0 ≤ (RAI_parseDAGLoadArgs ctx argv d sep).ret) ∧
    (∀ e ∈ (RAI_parseDAGLoadArgs ctx argv d sep).out, isArityReply e = false) ∧
    replyEntries (RAI_parseDAGLoadArgs ctx argv d sep).out = [] ∧
    ∃ k', ctx.keyspace k' = none ∧
      (RAI_parseDAGLoadArgs ctx argv d sep).out.getLast?
        = some (Effect.Log "warning" (loadWarning k')) := by
  have hargc : ¬ argv.length < 3 := by
    have := congrArg List.length hsplit
    simp [keyTokens] at this
    omega
  have hn0 : ¬ (n ≤ 0) := by omega
  have hrun : RAI_parseDAGLoadArgs ctx argv d sep
      = loadArgsLoop ctx sep n (pre ++ k :: post) 2 0 d := by
    simp only [RAI_parseDAGLoadArgs, hargc, if_false, hcount, hn0]
    rw [← hsplit, keyTokens]
  obtain ⟨h1, h2, h3⟩ := loadArgsLoop_missing_key ctx sep n pre k post 2 0 d
    (by simpa using hreach) (fun x hx => hnosep x (by simp [hx])) (hnosep k (by simp)) hmiss
  rw [hrun]
  refine ⟨h1, by rw [h1]; decide, ?_, ?_, h3⟩
  · intro e he
    by_contra hc
    have := isReplyEntry_of_isArityReply e (by simpa using hc)
    rw [h2 e he] at this
    exact absurd this (by decide)
  · simp only [replyEntries, List.filter_eq_nil_iff]
    intro e he
    simp [h2 e he]

theorem load_missing_key_fails_witness :
    (RAI_parseDAGLoadArgs ctxXY ["LOAD", "3", "x", "z", "y"] [] "|>").ret = -1 ∧
    ¬ (0 ≤ (RAI_parseDAGLoadArgs ctxXY ["LOAD", "3", "x", "z", "y"] [] "|>").ret) ∧
    (∀ e ∈ (RAI_parseDAGLoadArgs ctxXY ["LOAD", "3", "x", "z", "y"] [] "|>").out,
      isArityReply e = false) ∧
    replyEntries (RAI_parseDAGLoadArgs ctxXY ["LOAD", "3", "x", "z", "y"] [] "|>").out = [] ∧
    ∃ k', ctxXY.keyspace k' = none ∧
      (RAI_parseDAGLoadArgs ctxXY ["LOAD", "3", "x", "z", "y"] [] "|>").out.getLast?
        = some (Effect.Log "warning" (loadWarning k')) :=
  load_missing_key_fails ctxXY ["LOAD", "3", "x", "z", "y"] [] "|>" 3 ["x"] ["y"] "z"
    (by decide) (by decide) (by decide) (by decide) (by decide)

/-- C6: in a LOAD block with a valid positive count `n` in which fewer than
`n` keys can be consumed, because fewer than `n` key tokens follow the count
or because the separator stands among the first `n` key positions, and in
which every key consumed before that point exists in the store,
`RAI_parseDAGLoadArgs` returns `-1` and its only reply is the wrong-arity
error, emitted after the lookups of the consumed keys. -/
theorem load_too_few_keys_is_arity_error (ctx : RedisModuleCtx) (argv : List String)
    (d : AI_dict RAI_Tensor) (sep : String) (n : Nat)
    (hcount : (argv[1]?).bind RedisModule_StringToLongLong = some (n : Int))
    (hpos : 0 < n)
    (hfew : (keyTokens argv).length < n ∨
      ∃ i k, i < n ∧ (keyTokens argv)[i]? = some k ∧ strcasecmp k sep = 0)
    (hstore : ∀ k ∈ ((keyTokens argv).take n).takeWhile
        (fun k => decide (strcasecmp k sep ≠ 0)), (ctx.keyspace k).isSome) :
    (RAI_parseDAGLoadArgs ctx argv d sep).ret = -1 ∧
    replyEntries (RAI_parseDAGLoadArgs ctx argv d sep).out = [Effect.WrongArity] ∧
    (RAI_parseDAGLoadArgs ctx argv d sep).out
      = (((keyTokens argv).take n).takeWhile (fun k => decide (strcasecmp k sep ≠ 0))).map
          Effect.GetTensorFromKeyspace ++ [Effect.WrongArity] := by
  have hshort : (((keyTokens argv).take n).takeWhile
      (fun k => decide (strcasecmp k sep ≠ 0))).length < n := by
    rcases hfew with h | ⟨i, k, hi, hk, hsep⟩
    · have h1 := List.Sublist.length_le (@List.takeWhile_sublist _ ((keyTokens argv).take n)
        (fun k => decide (strcasecmp k sep ≠ 0)))
      have h3 : ((keyTokens argv).take n).length ≤ (keyTokens argv).length := by
        simp [List.length_take]
      omega
    · have hk' : ((keyTokens argv).take n)[i]? = some k := by
        rw [List.getElem?_take, if_pos hi, hk]
      have := takeWhile_length_le_of_not (fun k => decide (strcasecmp k sep ≠ 0))
        ((keyTokens argv).take n) i k hk' (by simp [hsep])
      omega
  have hreplies : ∀ (l : List String),
      replyEntries (l.map Effect.GetTensorFromKeyspace ++ [Effect.WrongArity])
        = [Effect.WrongArity] := by
    intro l
    induction l with
    | nil => rfl
    | cons a l ih => simp [replyEntries, isReplyEntry]
  by_cases hargc : argv.length < 3
  · have hlen : (keyTokens argv).length = 0 := by
      have h1 : argv[1]? ≠ none := by
        intro h; rw [h] at hcount; simp at hcount
      have h2 : 1 < argv.length := by
        by_contra hc
        exact h1 (List.getElem?_eq_none (by omega))
      simp [keyTokens]; omega
    have hnil : keyTokens argv = [] := List.length_eq_zero.mp hlen
    simp [RAI_parseDAGLoadArgs, hargc, hnil, replyEntries, isReplyEntry]
  · have hn0 : ¬ ((n : Int) ≤ 0) := by omega
    have hrun : RAI_parseDAGLoadArgs ctx argv d sep
        = loadArgsLoop ctx sep (n : Int) (keyTokens argv) 2 0 d := by
      simp only [RAI_parseDAGLoadArgs, hargc, if_false, hcount, hn0, keyTokens]
    obtain ⟨h1, h2⟩ := loadArgsLoop_too_few ctx sep (n : Int) (keyTokens argv) n 2 0 d
      (by simp) hshort hstore
    rw [hrun]
    exact ⟨h1, by rw [h2]; exact hreplies _, h2⟩

theorem load_too_few_keys_is_arity_error_witness :
    (RAI_parseDAGLoadArgs ctxXY ["LOAD", "2", "x", "|>", "y"] [] "|>").ret = -1 ∧
    replyEntries (RAI_parseDAGLoadArgs ctxXY ["LOAD", "2", "x", "|>", "y"] [] "|>").out
      = [Effect.WrongArity] ∧
    (RAI_parseDAGLoadArgs ctxXY ["LOAD", "2", "x", "|>", "y"] [] "|>").out
      = [Effect.GetTensorFromKeyspace "x", Effect.WrongArity] :=
  load_too_few_keys_is_arity_error ctxXY ["LOAD", "2", "x", "|>", "y"] [] "|>" 2
    (by decide) (by decide) (Or.inr ⟨1, "|>", by decide, by decide, by decide⟩) (by decide)

/-- C7: on a token stream with fewer than 3 tokens, or whose count token is
not an integer, or whose count is not positive, `RAI_parseDAGLoadArgs`
returns `-1`, replies with one arity-class error (the wrong-arity reply for
too few tokens, the invalid-count reply otherwise) and nothing else, looks
nothing up in the store and leaves the target context as it was. -/
theorem load_malformed_header_fails (ctx : RedisModuleCtx) (argv : List String)
    (d : AI_dict RAI_Tensor) (sep : String)
    (hbad : argv.length < 3 ∨ (argv[1]?).bind RedisModule_StringToLongLong = none ∨
      ∃ n, (argv[1]?).bind RedisModule_StringToLongLong = some n ∧ n ≤ 0) :
    (RAI_parseDAGLoadArgs ctx argv d sep).ret = -1 ∧
    (∃ e, (RAI_parseDAGLoadArgs ctx argv d sep).out = [e] ∧ isArityReply e = true) ∧
    storeLookups (RAI_parseDAGLoadArgs ctx argv d sep).out = [] ∧
    (RAI_parseDAGLoadArgs ctx argv d sep).dict = d := by
  have hshape : RAI_parseDAGLoadArgs ctx argv d sep = ⟨-1, d, [Effect.WrongArity]⟩ ∨
      RAI_parseDAGLoadArgs ctx argv d sep
        = ⟨-1, d, [Effect.ReplyWithError invalidCountMsg]⟩ := by
    by_cases hargc : argv.length < 3
    · left
      simp only [RAI_parseDAGLoadArgs, hargc, if_true]
    · right
      rcases hbad with h | h | ⟨n, h, hn⟩
      · exact absurd h hargc
      · simp only [RAI_parseDAGLoadArgs, hargc, if_false, h]
      · simp only [RAI_parseDAGLoadArgs, hargc, if_false, h, hn, if_true]
  rcases hshape with h | h <;> rw [h] <;> exact ⟨rfl, ⟨_, rfl, by decide⟩, rfl, rfl⟩

theorem load_malformed_header_fails_witness :
    (RAI_parseDAGLoadArgs ctxXY ["LOAD", "-1", "x", "y"] [("w", ⟨7⟩)] "|>").ret = -1 ∧
    (∃ e, (RAI_parseDAGLoadArgs ctxXY ["LOAD", "-1", "x", "y"] [("w", ⟨7⟩)] "|>").out = [e] ∧
      isArityReply e = true) ∧
    storeLookups (RAI_parseDAGLoadArgs ctxXY ["LOAD", "-1", "x", "y"] [("w", ⟨7⟩)] "|>").out
      = [] ∧
    (RAI_parseDAGLoadArgs ctxXY ["LOAD", "-1", "x", "y"] [("w", ⟨7⟩)] "|>").dict
      = [("w", ⟨7⟩)] :=
  load_malformed_header_fails ctxXY ["LOAD", "-1", "x", "y"] [("w", ⟨7⟩)] "|>"
    (Or.inr (Or.inr ⟨-1, by decide, by decide⟩))


/-! ## The PERSIST loop, and both loops on success -/

theorem AI_dictAdd_keys {V : Type} (d : AI_dict V) (k : String) (v : V) (x : String) :
    x ∈ AI_dictKeys (AI_dictAdd d k v).1 ↔ x ∈ AI_dictKeys d ∨ x = k := by
  unfold AI_dictAdd
  rcases hf : AI_dictFind d k with _ | e
  · simp [AI_dictKeys]
  · have hk : e.1 = k := by
      have := List.find?_some hf
      simpa using this
    have hmem : k ∈ AI_dictKeys d := by
      rw [← hk]
      exact List.mem_map_of_mem Prod.fst (List.mem_of_find?_eq_some hf)
    constructor
    · intro h; exact Or.inl h
    · rintro (h | rfl)
      · exact h
      · exact hmem

theorem persistArgsLoop_done (ctx : RedisModuleCtx) (sep : String) (n_keys : Int)
    (toks : List String) (argpos loaded : Nat) (d : AI_dict Nat)
    (h : ¬ ((loaded : Int) < n_keys)) :
    persistArgsLoop ctx sep n_keys toks argpos loaded d
      = parseArgsEnd n_keys argpos loaded d := by
  cases toks with
  | nil => rfl
  | cons k rest => simp only [persistArgsLoop, h, if_false]

theorem persistArgsLoop_sep (ctx : RedisModuleCtx) (sep : String) (n_keys : Int)
    (k : String) (rest : List String) (argpos loaded : Nat) (d : AI_dict Nat)
    (h : (loaded : Int) < n_keys) (hk : strcasecmp k sep = 0) :
    persistArgsLoop ctx sep n_keys (k :: rest) argpos loaded d
      = parseArgsEnd n_keys argpos loaded d := by
  simp only [persistArgsLoop, h, if_true, hk]

theorem persistArgsLoop_add (ctx : RedisModuleCtx) (sep : String) (n_keys : Int)
    (k : String) (rest : List String) (argpos loaded : Nat) (d : AI_dict Nat)
    (h : (loaded : Int) < n_keys) (hk : strcasecmp k sep ≠ 0) :
    persistArgsLoop ctx sep n_keys (k :: rest) argpos loaded d
      = persistArgsLoop ctx sep n_keys rest (argpos + 1) (loaded + 1)
          (AI_dictAdd d k 1).1 := by
  simp only [persistArgsLoop, h, if_true, hk, if_false]

theorem persistArgsLoop_ctx_irrelevant (ctx ctx' : RedisModuleCtx) (sep : String)
    (n_keys : Int) :
    ∀ (toks : List String) (argpos loaded : Nat) (d : AI_dict Nat),
      persistArgsLoop ctx' sep n_keys toks argpos loaded d
        = persistArgsLoop ctx sep n_keys toks argpos loaded d := by
  intro toks
  induction toks with
  | nil => intros; rfl
  | cons k rest ih =>
    intro argpos loaded d
    simp only [persistArgsLoop, ih]

theorem loadArgsLoop_success (ctx : RedisModuleCtx) (sep : String) (n_keys : Int) :
    ∀ (toks : List String) (m argpos loaded : Nat) (d : AI_dict RAI_Tensor),
      (loaded : Int) + m = n_keys →
      (loadArgsLoop ctx sep n_keys toks argpos loaded d).ret ≠ -1 →
      (loadArgsLoop ctx sep n_keys toks argpos loaded d).ret = ((argpos + m : Nat) : Int) ∧
      m ≤ toks.length ∧ ∀ k ∈ toks.take m, strcasecmp k sep ≠ 0 := by
  intro toks
  induction toks with
  | nil =>
    intro m argpos loaded d hn hok
    by_cases he : (loaded : Int) = n_keys
    · have hm : m = 0 := by omega
      subst hm
      simp [loadArgsLoop, parseArgsEnd_full n_keys argpos loaded d he]
    · simp [loadArgsLoop, parseArgsEnd_short n_keys argpos loaded d he] at hok
  | cons k rest ih =>
    intro m argpos loaded d hn hok
    by_cases hlt : (loaded : Int) < n_keys
    · have hne : (loaded : Int) ≠ n_keys := by omega
      by_cases hk : strcasecmp k sep = 0
      · rw [loadArgsLoop_sep ctx sep n_keys k rest argpos loaded d hlt hk,
          parseArgsEnd_short n_keys argpos loaded d hne] at hok
        exact absurd rfl hok
      · rcases ht : ctx.keyspace k with _ | t
        · rw [loadArgsLoop_miss ctx sep n_keys k rest argpos loaded d hlt hk ht] at hok
          exact absurd rfl hok
        · rw [loadArgsLoop_hit ctx sep n_keys k rest argpos loaded d t hlt hk ht] at hok ⊢
          cases m with
          | zero => omega
          | succ m =>
            obtain ⟨h1, h2, h3⟩ := ih m (argpos + 1) (loaded + 1) (AI_dictAdd d k t).1
              (by push_cast at hn ⊢; omega) hok
            refine ⟨?_, by simpa using h2, ?_⟩
            · show (loadArgsLoop ctx sep n_keys rest (argpos + 1) (loaded + 1)
                (AI_dictAdd d k t).1).ret = _
              rw [h1]; push_cast; omega
            · intro x hx
              rw [List.take_succ_cons] at hx
              rcases List.mem_cons.mp hx with rfl | hx
              · exact hk
              · exact h3 x hx
    · have he : (loaded : Int) = n_keys := by
        by_contra hc
        rw [loadArgsLoop_done ctx sep n_keys _ argpos loaded d hlt,
          parseArgsEnd_short n_keys argpos loaded d hc] at hok
        exact absurd rfl hok
      have hm : m = 0 := by omega
      subst hm
      rw [loadArgsLoop_done ctx sep n_keys _ argpos loaded d hlt,
        parseArgsEnd_full n_keys argpos loaded d he]
      simp

theorem persistArgsLoop_success (ctx : RedisModuleCtx) (sep : String) (n_keys : Int) :
    ∀ (toks : List String) (m argpos loaded : Nat) (d : AI_dict Nat),
      (loaded : Int) + m = n_keys →
      (persistArgsLoop ctx sep n_keys toks argpos loaded d).ret ≠ -1 →
      (persistArgsLoop ctx sep n_keys toks argpos loaded d).ret = ((argpos + m : Nat) : Int) ∧
      m ≤ toks.length ∧ (∀ k ∈ toks.take m, strcasecmp k sep ≠ 0) ∧
      (∀ x, x ∈ AI_dictKeys (persistArgsLoop ctx sep n_keys toks argpos loaded d).dict
        ↔ x ∈ AI_dictKeys d ∨ x ∈ toks.take m) ∧
      (persistArgsLoop ctx sep n_keys toks argpos loaded d).out = [] := by
  intro toks
  induction toks with
  | nil =>
    intro m argpos loaded d hn hok
    by_cases he : (loaded : Int) = n_keys
    · have hm : m = 0 := by omega
      subst hm
      simp [persistArgsLoop, parseArgsEnd_full n_keys argpos loaded d he]
    · simp [persistArgsLoop, parseArgsEnd_short n_keys argpos loaded d he] at hok
  | cons k rest ih =>
    intro m argpos loaded d hn hok
    by_cases hlt : (loaded : Int) < n_keys
    · have hne : (loaded : Int) ≠ n_keys := by omega
      by_cases hk : strcasecmp k sep = 0
      · rw [persistArgsLoop_sep ctx sep n_keys k rest argpos loaded d hlt hk,
          parseArgsEnd_short n_keys argpos loaded d hne] at hok
        exact absurd rfl hok
      · rw [persistArgsLoop_add ctx sep n_keys k rest argpos loaded d hlt hk] at hok ⊢
        cases m with
        | zero => omega
        | succ m =>
          obtain ⟨h1, h2, h3, h4, h5⟩ := ih m (argpos + 1) (loaded + 1) (AI_dictAdd d k 1).1
            (by push_cast at hn ⊢; omega) hok
          refine ⟨?_, by simpa using h2, ?_, ?_, h5⟩
          · rw [h1]; push_cast; omega
          · intro x hx
            rw [List.take_succ_cons] at hx
            rcases List.mem_cons.mp hx with rfl | hx
            · exact hk
            · exact h3 x hx
          · intro x
            rw [h4 x, AI_dictAdd_keys, List.take_succ_cons, List.mem_cons]
            tauto
    · have he : (loaded : Int) = n_keys := by
        by_contra hc
        rw [persistArgsLoop_done ctx sep n_keys _ argpos loaded d hlt,
          parseArgsEnd_short n_keys argpos loaded d hc] at hok
        exact absurd rfl hok
      have hm : m = 0 := by omega
      subst hm
      rw [persistArgsLoop_done ctx sep n_keys _ argpos loaded d hlt,
        parseArgsEnd_full n_keys argpos loaded d he]
      simp

theorem load_success_run (ctx : RedisModuleCtx) (argv : List String)
    (d : AI_dict RAI_Tensor) (sep : String) (n : Int)
    (hcount : (argv[1]?).bind RedisModule_StringToLongLong = some n)
    (hok : (RAI_parseDAGLoadArgs ctx argv d sep).ret ≠ -1) :
    0 < n ∧ RAI_parseDAGLoadArgs ctx argv d sep
      = loadArgsLoop ctx sep n (keyTokens argv) 2 0 d := by
  by_cases hargc : argv.length < 3
  · simp [RAI_parseDAGLoadArgs, hargc] at hok
  · by_cases hn : n ≤ 0
    · simp [RAI_parseDAGLoadArgs, hargc, hcount, hn] at hok
    · refine ⟨by omega, ?_⟩
      simp only [RAI_parseDAGLoadArgs, hargc, if_false, hcount, hn, keyTokens]

theorem persist_success_run (ctx : RedisModuleCtx) (argv : List String)
    (d : AI_dict Nat) (sep : String) (n : Int)
    (hcount : (argv[1]?).bind RedisModule_StringToLongLong = some n)
    (hok : (RAI_parseDAGPersistArgs ctx argv d sep).ret ≠ -1) :
    0 < n ∧ RAI_parseDAGPersistArgs ctx argv d sep
      = persistArgsLoop ctx sep n (keyTokens argv) 2 0 d := by
  by_cases hargc : argv.length < 3
  · simp [RAI_parseDAGPersistArgs, hargc] at hok
  · by_cases hn : n ≤ 0
    · simp [RAI_parseDAGPersistArgs, hargc, hcount, hn] at hok
    · refine ⟨by omega, ?_⟩
      simp only [RAI_parseDAGPersistArgs, hargc, if_false, hcount, hn, keyTokens]

theorem keyTokens_position (argv : List String) (m i : Nat) (k : String)
    (h2 : 2 ≤ i) (hi : i < m + 2) (hk : argv[i]? = some k) :
    k ∈ (keyTokens argv).take m := by
  rw [List.mem_iff_getElem?]
  refine ⟨i - 2, ?_⟩
  rw [List.getElem?_take, if_pos (by omega), keyTokens, List.getElem?_drop]
  have : 2 + (i - 2) = i := by omega
  rw [this, hk]

/-- C8: whenever `RAI_parseDAGLoadArgs` or `RAI_parseDAGPersistArgs` succeeds
(returns something other than `-1`) on a block with declared count `n`, the
returned position is exactly `n + 2`, it is at most `argc`, and no token at
the positions `2 .. n+1` is the chaining separator under the case-insensitive
comparison. -/
theorem parse_success_position (ctx : RedisModuleCtx) (argv : List String)
    (dL : AI_dict RAI_Tensor) (dP : AI_dict Nat) (sep : String) (n : Int)
    (hcount : (argv[1]?).bind RedisModule_StringToLongLong = some n) :
    ((RAI_parseDAGLoadArgs ctx argv dL sep).ret ≠ -1 →
      (RAI_parseDAGLoadArgs ctx argv dL sep).ret = n + 2 ∧ n + 2 ≤ (argv.length : Int) ∧
      ∀ (i : Nat) (k : String), 2 ≤ i → (i : Int) < n + 2 → argv[i]? = some k →
        strcasecmp k sep ≠ 0) ∧
    ((RAI_parseDAGPersistArgs ctx argv dP sep).ret ≠ -1 →
      (RAI_parseDAGPersistArgs ctx argv dP sep).ret = n + 2 ∧ n + 2 ≤ (argv.length : Int) ∧
      ∀ (i : Nat) (k : String), 2 ≤ i → (i : Int) < n + 2 → argv[i]? = some k →
        strcasecmp k sep ≠ 0) := by
  constructor
  · intro hok
    obtain ⟨hpos, hrun⟩ := load_success_run ctx argv dL sep n hcount hok
    rw [hrun] at hok ⊢
    obtain ⟨h1, h2, h3⟩ := loadArgsLoop_success ctx sep n (keyTokens argv) n.toNat 2 0 dL
      (by simp; omega) hok
    have hlen : (keyTokens argv).length = argv.length - 2 := by simp [keyTokens]
    refine ⟨by rw [h1]; push_cast; omega, by omega, ?_⟩
    intro i k hi2 hi hk
    exact h3 k (keyTokens_position argv n.toNat i k hi2 (by omega) hk)
  · intro hok
    obtain ⟨hpos, hrun⟩ := persist_success_run ctx argv dP sep n hcount hok
    rw [hrun] at hok ⊢
    obtain ⟨h1, h2, h3, _, _⟩ := persistArgsLoop_success ctx sep n (keyTokens argv) n.toNat
      2 0 dP (by simp; omega) hok
    have hlen : (keyTokens argv).length = argv.length - 2 := by simp [keyTokens]
    refine ⟨by rw [h1]; push_cast; omega, by omega, ?_⟩
    intro i k hi2 hi hk
    exact h3 k (keyTokens_position argv n.toNat i k hi2 (by omega) hk)

theorem parse_success_position_witness :
    (RAI_parseDAGLoadArgs ctxXY ["LOAD", "2", "x", "y", "|>", "z"] [] "|>").ret = 2 + 2 ∧
    (RAI_parseDAGPersistArgs ctxXY ["LOAD", "2", "x", "y", "|>", "z"] [] "|>").ret = 2 + 2 :=
  ⟨((parse_success_position ctxXY ["LOAD", "2", "x", "y", "|>", "z"] [] [] "|>" 2
      (by decide)).1 (by decide)).1,
   ((parse_success_position ctxXY ["LOAD", "2", "x", "y", "|>", "z"] [] [] "|>" 2
      (by decide)).2 (by decide)).1⟩

/-- C9: when `RAI_parseDAGPersistArgs` succeeds on a block with declared count
`n` starting from an empty persist set, the names in the resulting set are
exactly the `n` consumed names `argv[2..n+1]`; the parser looks nothing up in
the store, and its whole result is the same for every module context, that
is, for every state of the shared store and of the scoped tensor context. -/
theorem persist_set_is_consumed_names (ctx : RedisModuleCtx) (argv : List String)
    (sep : String) (n : Nat)
    (hcount : (argv[1]?).bind RedisModule_StringToLongLong = some (n : Int))
    (hok : (RAI_parseDAGPersistArgs ctx argv [] sep).ret ≠ -1) :
    (∀ x, x ∈ AI_dictKeys (RAI_parseDAGPersistArgs ctx argv [] sep).dict
      ↔ x ∈ (keyTokens argv).take n) ∧
    ((keyTokens argv).take n).length = n ∧
    storeLookups (RAI_parseDAGPersistArgs ctx argv [] sep).out = [] ∧
    ∀ ctx' : RedisModuleCtx,
      RAI_parseDAGPersistArgs ctx' argv [] sep = RAI_parseDAGPersistArgs ctx argv [] sep := by
  obtain ⟨hpos, hrun⟩ := persist_success_run ctx argv [] sep n hcount hok
  rw [hrun] at hok
  obtain ⟨_, h2, _, h4, h5⟩ := persistArgsLoop_success ctx sep n (keyTokens argv) n 2 0 []
    (by simp) hok
  refine ⟨?_, by simp; omega, ?_, ?_⟩
  · intro x
    rw [hrun, h4 x]
    simp [AI_dictKeys]
  · rw [hrun, h5]; rfl
  · intro ctx'
    simp only [RAI_parseDAGPersistArgs, persistArgsLoop_ctx_irrelevant ctx ctx']

theorem persist_set_is_consumed_names_witness :
    (∀ x, x ∈ AI_dictKeys
        (RAI_parseDAGPersistArgs ctxXY ["PERSIST", "2", "p", "q", "|>"] [] "|>").dict
      ↔ x ∈ ["p", "q"]) ∧
    (["p", "q"] : List String).length = 2 ∧
    storeLookups (RAI_parseDAGPersistArgs ctxXY ["PERSIST", "2", "p", "q", "|>"] [] "|>").out
      = [] ∧
    ∀ ctx' : RedisModuleCtx,
      RAI_parseDAGPersistArgs ctx' ["PERSIST", "2", "p", "q", "|>"] [] "|>"
        = RAI_parseDAGPersistArgs ctxXY ["PERSIST", "2", "p", "q", "|>"] [] "|>" :=
  persist_set_is_consumed_names ctxXY ["PERSIST", "2", "p", "q", "|>"] "|>" 2
    (by decide) (by decide)

theorem loops_agree (ctx : RedisModuleCtx) (sep : String) (n_keys : Int) :
    ∀ (toks : List String) (argpos loaded : Nat) (dL : AI_dict RAI_Tensor) (dP : AI_dict Nat),
      (∀ k ∈ storeLookups (loadArgsLoop ctx sep n_keys toks argpos loaded dL).out,
        (ctx.keyspace k).isSome) →
      (persistArgsLoop ctx sep n_keys toks argpos loaded dP).ret
        = (loadArgsLoop ctx sep n_keys toks argpos loaded dL).ret ∧
      replyEntries (persistArgsLoop ctx sep n_keys toks argpos loaded dP).out
        = replyEntries (loadArgsLoop ctx sep n_keys toks argpos loaded dL).out := by
  intro toks
  induction toks with
  | nil =>
    intro argpos loaded dL dP _
    simp only [persistArgsLoop, loadArgsLoop, parseArgsEnd]
    split <;> exact ⟨rfl, rfl⟩
  | cons k rest ih =>
    intro argpos loaded dL dP hres
    by_cases hlt : (loaded : Int) < n_keys
    · by_cases hk : strcasecmp k sep = 0
      · rw [persistArgsLoop_sep ctx sep n_keys k rest argpos loaded dP hlt hk,
          loadArgsLoop_sep ctx sep n_keys k rest argpos loaded dL hlt hk]
        simp only [parseArgsEnd]
        split <;> exact ⟨rfl, rfl⟩
      · rcases ht : ctx.keyspace k with _ | t
        · rw [loadArgsLoop_miss ctx sep n_keys k rest argpos loaded dL hlt hk ht] at hres
          have := hres k (by simp [storeLookups])
          rw [ht] at this
          exact absurd this (by decide)
        · rw [loadArgsLoop_hit ctx sep n_keys k rest argpos loaded dL t hlt hk ht] at hres ⊢
          rw [persistArgsLoop_add ctx sep n_keys k rest argpos loaded dP hlt hk]
          obtain ⟨h1, h2⟩ := ih (argpos + 1) (loaded + 1) (AI_dictAdd dL k t).1
            (AI_dictAdd dP k 1).1
            (fun x hx => hres x (by simp only [storeLookups, List.mem_cons]; exact Or.inr hx))
          refine ⟨h1, ?_⟩
          rw [h2]
          simp [replyEntries, isReplyEntry]
    · rw [persistArgsLoop_done ctx sep n_keys _ argpos loaded dP hlt,
        loadArgsLoop_done ctx sep n_keys _ argpos loaded dL hlt]
      simp only [parseArgsEnd]
      split <;> exact ⟨rfl, rfl⟩

/-- C10: PERSIST follows the arity and separator rules of LOAD: on every token
stream and separator, if every key that `RAI_parseDAGLoadArgs` looks up in the
shared store resolves, then `RAI_parseDAGPersistArgs` returns the same value
(the same position, or `-1`) and emits the same reply entries, so a failure is
of the same kind. -/
theorem persist_agrees_with_load (ctx : RedisModuleCtx) (argv : List String)
    (dL : AI_dict RAI_Tensor) (dP : AI_dict Nat) (sep : String)
    (hres : ∀ k ∈ storeLookups (RAI_parseDAGLoadArgs ctx argv dL sep).out,
      (ctx.keyspace k).isSome) :
    (RAI_parseDAGPersistArgs ctx argv dP sep).ret = (RAI_parseDAGLoadArgs ctx argv dL sep).ret ∧
    replyEntries (RAI_parseDAGPersistArgs ctx argv dP sep).out
      = replyEntries (RAI_parseDAGLoadArgs ctx argv dL sep).out := by
  by_cases hargc : argv.length < 3
  · simp only [RAI_parseDAGPersistArgs, RAI_parseDAGLoadArgs, hargc, if_true, and_self]
  · rcases hc : (argv[1]?).bind RedisModule_StringToLongLong with _ | n
    · simp only [RAI_parseDAGPersistArgs, RAI_parseDAGLoadArgs, hargc, if_false, hc, and_self]
    · by_cases hn : n ≤ 0
      · simp only [RAI_parseDAGPersistArgs, RAI_parseDAGLoadArgs, hargc, if_false, hc, hn,
          if_true, and_self]
      · simp only [RAI_parseDAGLoadArgs, hargc, if_false, hc, hn] at hres
        simp only [RAI_parseDAGPersistArgs, RAI_parseDAGLoadArgs, hargc, if_false, hc, hn]
        exact loops_agree ctx sep n (argv.drop 2) 2 0 dL dP hres

theorem persist_agrees_with_load_witness :
    (RAI_parseDAGPersistArgs ctxXY ["BLOCK", "2", "x", "|>", "y"] [] "|>").ret
      = (RAI_parseDAGLoadArgs ctxXY ["BLOCK", "2", "x", "|>", "y"] [] "|>").ret ∧
    replyEntries (RAI_parseDAGPersistArgs ctxXY ["BLOCK", "2", "x", "|>", "y"] [] "|>").out
      = replyEntries (RAI_parseDAGLoadArgs ctxXY ["BLOCK", "2", "x", "|>", "y"] [] "|>").out :=
  persist_agrees_with_load ctxXY ["BLOCK", "2", "x", "|>", "y"] [] [] "|>" (by decide)

/-! ## The store after the reply loop -/

theorem dagRunReplyBody_keyspace (ctx : RedisModuleCtx) (e : String × Nat) (k : String) :
    (dagRunReplyBody ctx e).1.keyspace k
      = if k = e.1 then
          (match committedTensor ctx.blockedClientPrivateData.dagTensorsContext
              ctx.openKeyFails ctx.setValueFails k with
            | some t => some t
            | none => ctx.keyspace k)
        else ctx.keyspace k := by
  by_cases hk : k = e.1
  · subst hk
    rcases hf : AI_dictFind ctx.blockedClientPrivateData.dagTensorsContext e.1 with _ | te
    · simp [dagRunReplyBody, committedTensor, hf, incrReplyLength]
    · rcases ho : ctx.openKeyFails e.1 <;> rcases hs : ctx.setValueFails e.1 <;>
        simp [dagRunReplyBody, committedTensor, hf, RAI_OpenKey_Tensor,
          RedisModule_ModuleTypeSetValue, ho, hs, incrReplyLength, REDISMODULE_ERR,
          REDISMODULE_OK]
  · rcases hf : AI_dictFind ctx.blockedClientPrivateData.dagTensorsContext e.1 with _ | te
    · simp [dagRunReplyBody, hf, incrReplyLength, hk]
    · rcases ho : ctx.openKeyFails e.1 <;> rcases hs : ctx.setValueFails e.1 <;>
        simp [dagRunReplyBody, hf, RAI_OpenKey_Tensor, RedisModule_ModuleTypeSetValue, ho, hs,
          incrReplyLength, REDISMODULE_ERR, REDISMODULE_OK, hk]

theorem dagRunReplyLoop_keyspace :
    ∀ (entries : List (String × Nat)) (ctx : RedisModuleCtx) (k : String),
      (dagRunReplyLoop entries ctx).1.keyspace k
        = if k ∈ AI_dictKeys entries then
            (match committedTensor ctx.blockedClientPrivateData.dagTensorsContext
                ctx.openKeyFails ctx.setValueFails k with
              | some t => some t
              | none => ctx.keyspace k)
          else ctx.keyspace k := by
  intro entries
  induction entries with
  | nil => intro ctx k; simp [dagRunReplyLoop, AI_dictKeys]
  | cons e rest ih =>
    intro ctx k
    obtain ⟨f1, f2, f3, _⟩ := dagRunReplyBody_frame ctx e
    have h := ih (dagRunReplyBody ctx e).1 k
    rw [f1, f2, f3, dagRunReplyBody_keyspace ctx e k] at h
    simp only [dagRunReplyLoop]
    rw [h]
    have hmem : k ∈ AI_dictKeys (e :: rest) ↔ k = e.1 ∨ k ∈ AI_dictKeys rest := by
      simp [AI_dictKeys]
    cases committedTensor ctx.blockedClientPrivateData.dagTensorsContext
      ctx.openKeyFails ctx.setValueFails k <;> dsimp only <;> split_ifs <;> simp_all

theorem reply_keyspace (ctx : RedisModuleCtx) (argv : List String) (k : String) :
    (RedisAI_DagRun_Reply ctx argv).ctx.keyspace k
      = if k ∈ AI_dictKeys ctx.blockedClientPrivateData.dagTensorsPersistentContext then
          (match committedTensor ctx.blockedClientPrivateData.dagTensorsContext
              ctx.openKeyFails ctx.setValueFails k with
            | some t => some t
            | none => ctx.keyspace k)
        else ctx.keyspace k := by
  simp only [RedisAI_DagRun_Reply]
  exact dagRunReplyLoop_keyspace _ ctx k

/-- C11: after `RedisAI_DagRun_Reply`, a persisted name that is in the scoped
tensor context and whose open and store both succeed is mapped by the shared
store to the tensor the scope holds under that name, whatever happens to the
other persisted names; every other store key holds the value it held before
the call. -/
theorem reply_commits_persisted_tensors (ctx : RedisModuleCtx) (argv : List String)
    (k : String) :
    (∀ e, k ∈ AI_dictKeys ctx.blockedClientPrivateData.dagTensorsPersistentContext →
      AI_dictFind ctx.blockedClientPrivateData.dagTensorsContext k = some e →
      ctx.openKeyFails k = false → ctx.setValueFails k = false →
      (RedisAI_DagRun_Reply ctx argv).ctx.keyspace k = some e.2) ∧
    (¬ (k ∈ AI_dictKeys ctx.blockedClientPrivateData.dagTensorsPersistentContext ∧
        (AI_dictFind ctx.blockedClientPrivateData.dagTensorsContext k).isSome = true ∧
        ctx.openKeyFails k = false ∧ ctx.setValueFails k = false) →
      (RedisAI_DagRun_Reply ctx argv).ctx.keyspace k = ctx.keyspace k) := by
  rw [reply_keyspace ctx argv k]
  constructor
  · intro e hk hf ho hs
    simp [hk, committedTensor, hf, ho, hs]
  · intro hnot
    by_cases hk : k ∈ AI_dictKeys ctx.blockedClientPrivateData.dagTensorsPersistentContext
    · rw [if_pos hk]
      rcases hf : AI_dictFind ctx.blockedClientPrivateData.dagTensorsContext k with _ | e
      · simp [committedTensor, hf]
      · rcases ho : ctx.openKeyFails k <;> rcases hs : ctx.setValueFails k
        · exact absurd ⟨hk, by simp [hf], ho, hs⟩ hnot
        all_goals simp [committedTensor, hf, ho, hs]
    · rw [if_neg hk]

theorem reply_commits_persisted_tensors_witness :
    (RedisAI_DagRun_Reply ctxABC []).ctx.keyspace "a" = some ⟨10⟩ ∧
    (RedisAI_DagRun_Reply ctxABC []).ctx.keyspace "c" = ctxABC.keyspace "c" :=
  ⟨(reply_commits_persisted_tensors ctxABC [] "a").1 ("a", ⟨10⟩)
      (by decide) (by decide) (by decide) (by decide),
    (reply_commits_persisted_tensors ctxABC [] "c").2 (by decide)⟩

/-- C12: the commit step is idempotent on the store: running
`RedisAI_DagRun_Reply` again on the context the first run left behind (the
same scope, persist set and per-key open and store outcomes) leaves every
store key with the content it had after the first run. -/
theorem reply_commit_idempotent (ctx : RedisModuleCtx) (argv argv' : List String) :
    (RedisAI_DagRun_Reply (RedisAI_DagRun_Reply ctx argv).ctx argv').ctx.keyspace
      = (RedisAI_DagRun_Reply ctx argv).ctx.keyspace := by
  funext k
  obtain ⟨f1, f2, f3, f4⟩ :=
    dagRunReplyLoop_frame ctx.blockedClientPrivateData.dagTensorsPersistentContext ctx
  have hframe : (RedisAI_DagRun_Reply ctx argv).ctx
      = (dagRunReplyLoop ctx.blockedClientPrivateData.dagTensorsPersistentContext ctx).1 := rfl
  rw [reply_keyspace (RedisAI_DagRun_Reply ctx argv).ctx argv' k, hframe, f1, f2, f3, f4,
    ← hframe, reply_keyspace ctx argv k]
  by_cases hk : k ∈ AI_dictKeys ctx.blockedClientPrivateData.dagTensorsPersistentContext
  · simp only [hk, if_true]
    cases committedTensor ctx.blockedClientPrivateData.dagTensorsContext
      ctx.openKeyFails ctx.setValueFails k <;> rfl
  · simp only [hk, if_false]

theorem reply_commit_idempotent_witness :
    (RedisAI_DagRun_Reply (RedisAI_DagRun_Reply ctxABC []).ctx []).ctx.keyspace "a"
      = some ⟨10⟩ :=
  (congrFun (reply_commit_idempotent ctxABC [] []) "a").trans (by decide)

/-- C20 (evaluation at the failing input): with the single persisted name `a`
in scope and the open of key `a` failing, no open succeeds, and the key `a` is
closed all the same, right after the "could not save tensor" error. -/
theorem reply_closes_key_after_failed_open :
    openedKeys (RedisAI_DagRun_Reply ctxOpenFails []).out = [] ∧
    closedKeys (RedisAI_DagRun_Reply ctxOpenFails []).out = ["a"] ∧
    (RedisAI_DagRun_Reply ctxOpenFails []).out.take 3
      = [Effect.OpenKey_Tensor "a" REDISMODULE_ERR,
         Effect.ReplyWithError couldNotSaveMsg,
         Effect.CloseKey "a"] := by
  decide


/-! ## Insertion only: what the LOAD loop does to the context -/

theorem AI_dictAdd_extends {V : Type} (d : AI_dict V) (k : String) (v : V) :
    d <+: (AI_dictAdd d k v).1 := by
  unfold AI_dictAdd
  cases AI_dictFind d k with
  | none => exact List.prefix_append d _
  | some e => exact List.prefix_refl d

theorem AI_dictAdd_length {V : Type} (d : AI_dict V) (k : String) (v : V) :
    (AI_dictAdd d k v).1.length ≤ d.length + 1 := by
  unfold AI_dictAdd
  cases AI_dictFind d k with
  | none => simp
  | some e => simp

theorem AI_dictFind_none_not_mem {V : Type} (d : AI_dict V) (k : String)
    (h : AI_dictFind d k = none) : k ∉ AI_dictKeys d := by
  intro hk
  obtain ⟨e, he, hek⟩ := List.mem_map.mp hk
  have := List.find?_eq_none.mp h e he
  simp [hek] at this

theorem AI_dictAdd_nodup {V : Type} (d : AI_dict V) (k : String) (v : V)
    (h : (AI_dictKeys d).Nodup) : (AI_dictKeys (AI_dictAdd d k v).1).Nodup := by
  unfold AI_dictAdd
  rcases hf : AI_dictFind d k with _ | e
  · have hk := AI_dictFind_none_not_mem d k hf
    simp only [AI_dictKeys, List.map_append, List.map_cons, List.map_nil]
    rw [List.nodup_append]
    refine ⟨h, List.nodup_singleton k, ?_⟩
    intro x hx hx'
    rw [List.mem_singleton] at hx'
    subst hx'
    exact hk hx
  · exact h

theorem AI_dictFind_of_extends {V : Type} (d d' : AI_dict V) (k : String) (e : String × V)
    (hp : d <+: d') (hf : AI_dictFind d k = some e) : AI_dictFind d' k = some e := by
  obtain ⟨t, rfl⟩ := hp
  unfold AI_dictFind at *
  rw [List.find?_append, hf]
  rfl

theorem AI_dictFind_append_self {V : Type} (d : AI_dict V) (k : String) (v : V)
    (hd : AI_dictFind d k = none) : AI_dictFind (d ++ [(k, v)]) k = some (k, v) := by
  unfold AI_dictFind at *
  rw [List.find?_append, hd]
  simp

theorem loadArgsLoop_extends (ctx : RedisModuleCtx) (sep : String) (n_keys : Int) :
    ∀ (toks : List String) (argpos loaded : Nat) (d : AI_dict RAI_Tensor),
      d <+: (loadArgsLoop ctx sep n_keys toks argpos loaded d).dict ∧
      ((AI_dictKeys d).Nodup →
        (AI_dictKeys (loadArgsLoop ctx sep n_keys toks argpos loaded d).dict).Nodup) := by
  intro toks
  induction toks with
  | nil =>
    intro argpos loaded d
    simp only [loadArgsLoop, parseArgsEnd]
    split <;> exact ⟨List.prefix_refl d, id⟩
  | cons k rest ih =>
    intro argpos loaded d
    by_cases hlt : (loaded : Int) < n_keys
    · by_cases hk : strcasecmp k sep = 0
      · rw [loadArgsLoop_sep ctx sep n_keys k rest argpos loaded d hlt hk]
        simp only [parseArgsEnd]
        split <;> exact ⟨List.prefix_refl d, id⟩
      · rcases ht : ctx.keyspace k with _ | t
        · rw [loadArgsLoop_miss ctx sep n_keys k rest argpos loaded d hlt hk ht]
          exact ⟨List.prefix_refl d, id⟩
        · rw [loadArgsLoop_hit ctx sep n_keys k rest argpos loaded d t hlt hk ht]
          obtain ⟨h1, h2⟩ := ih (argpos + 1) (loaded + 1) (AI_dictAdd d k t).1
          exact ⟨(AI_dictAdd_extends d k t).trans h1,
            fun hd => h2 (AI_dictAdd_nodup d k t hd)⟩
    · rw [loadArgsLoop_done ctx sep n_keys _ argpos loaded d hlt]
      simp only [parseArgsEnd]
      split <;> exact ⟨List.prefix_refl d, id⟩

theorem loadArgsLoop_success_keys (ctx : RedisModuleCtx) (sep : String) (n_keys : Int) :
    ∀ (toks : List String) (m argpos loaded : Nat) (d : AI_dict RAI_Tensor),
      (loaded : Int) + m = n_keys →
      (loadArgsLoop ctx sep n_keys toks argpos loaded d).ret ≠ -1 →
      (∀ x, x ∈ AI_dictKeys (loadArgsLoop ctx sep n_keys toks argpos loaded d).dict
        ↔ x ∈ AI_dictKeys d ∨ x ∈ toks.take m) ∧
      (loadArgsLoop ctx sep n_keys toks argpos loaded d).dict.length ≤ d.length + m := by
  intro toks
  induction toks with
  | nil =>
    intro m argpos loaded d hn hok
    by_cases he : (loaded : Int) = n_keys
    · simp [loadArgsLoop, parseArgsEnd_full n_keys argpos loaded d he]
    · simp [loadArgsLoop, parseArgsEnd_short n_keys argpos loaded d he] at hok
  | cons k rest ih =>
    intro m argpos loaded d hn hok
    by_cases hlt : (loaded : Int) < n_keys
    · have hne : (loaded : Int) ≠ n_keys := by omega
      by_cases hk : strcasecmp k sep = 0
      · rw [loadArgsLoop_sep ctx sep n_keys k rest argpos loaded d hlt hk,
          parseArgsEnd_short n_keys argpos loaded d hne] at hok
        exact absurd rfl hok
      · rcases ht : ctx.keyspace k with _ | t
        · rw [loadArgsLoop_miss ctx sep n_keys k rest argpos loaded d hlt hk ht] at hok
          exact absurd rfl hok
        · rw [loadArgsLoop_hit ctx sep n_keys k rest argpos loaded d t hlt hk ht] at hok ⊢
          cases m with
          | zero => omega
          | succ m =>
            obtain ⟨h1, h2⟩ := ih m (argpos + 1) (loaded + 1) (AI_dictAdd d k t).1
              (by push_cast at hn ⊢; omega) hok
            have hlen := AI_dictAdd_length d k t
            refine ⟨?_, ?_⟩
            swap
            · show (loadArgsLoop ctx sep n_keys rest (argpos + 1) (loaded + 1)
                (AI_dictAdd d k t).1).dict.length ≤ _
              omega
            intro x
            show x ∈ AI_dictKeys (loadArgsLoop ctx sep n_keys rest (argpos + 1) (loaded + 1)
              (AI_dictAdd d k t).1).dict ↔ _
            rw [h1 x, AI_dictAdd_keys, List.take_succ_cons, List.mem_cons]
            tauto
    · have he : (loaded : Int) = n_keys := by
        by_contra hc
        rw [loadArgsLoop_done ctx sep n_keys _ argpos loaded d hlt,
          parseArgsEnd_short n_keys argpos loaded d hc] at hok
        exact absurd rfl hok
      have hm : m = 0 := by omega
      subst hm
      rw [loadArgsLoop_done ctx sep n_keys _ argpos loaded d hlt,
        parseArgsEnd_full n_keys argpos loaded d he]
      simp

theorem load_run (ctx : RedisModuleCtx) (argv : List String) (d : AI_dict RAI_Tensor)
    (sep : String) :
    RAI_parseDAGLoadArgs ctx argv d sep = ⟨-1, d, [Effect.WrongArity]⟩ ∨
    RAI_parseDAGLoadArgs ctx argv d sep = ⟨-1, d, [Effect.ReplyWithError invalidCountMsg]⟩ ∨
    ∃ n, RAI_parseDAGLoadArgs ctx argv d sep = loadArgsLoop ctx sep n (keyTokens argv) 2 0 d := by
  by_cases hargc : argv.length < 3
  · left
    simp only [RAI_parseDAGLoadArgs, hargc, if_true]
  · right
    rcases hc : (argv[1]?).bind RedisModule_StringToLongLong with _ | n
    · left
      simp only [RAI_parseDAGLoadArgs, hargc, if_false, hc]
    · by_cases hn : n ≤ 0
      · left
        simp only [RAI_parseDAGLoadArgs, hargc, if_false, hc, hn, if_true]
      · right
        exact ⟨n, by simp only [RAI_parseDAGLoadArgs, hargc, if_false, hc, hn, keyTokens]⟩

/-- C13 (the claim fails): the block `LOAD 2 x x`, which names `x` twice, is
parsed with success, position `4`, and leaves one entry; the block `LOAD 1 x`
parsed into a context that already holds `x` succeeds too and leaves the older
entry in place. -/
theorem load_repeated_name_is_accepted :
    (RAI_parseDAGLoadArgs ctxXY ["LOAD", "2", "x", "x"] [] "|>").ret = 4 ∧
    (RAI_parseDAGLoadArgs ctxXY ["LOAD", "2", "x", "x"] [] "|>").dict = [("x", ⟨1⟩)] ∧
    (RAI_parseDAGLoadArgs ctxXY ["LOAD", "1", "x"] [("x", ⟨9⟩)] "|>").ret = 3 ∧
    (RAI_parseDAGLoadArgs ctxXY ["LOAD", "1", "x"] [("x", ⟨9⟩)] "|>").dict = [("x", ⟨9⟩)] := by
  decide

theorem loadArgsLoop_all_resolve (ctx : RedisModuleCtx) (sep : String) (n_keys : Int) :
    ∀ (m : Nat) (toks : List String) (argpos loaded : Nat) (d : AI_dict RAI_Tensor),
      (loaded : Int) + m = n_keys → m ≤ toks.length →
      (∀ k ∈ toks.take m, strcasecmp k sep ≠ 0) →
      (∀ k ∈ toks.take m, (ctx.keyspace k).isSome) →
      (loadArgsLoop ctx sep n_keys toks argpos loaded d).ret = ((argpos + m : Nat) : Int) := by
  intro m
  induction m with
  | zero =>
    intro toks argpos loaded d hn _ _ _
    have hn' : (loaded : Int) = n_keys := by simpa using hn
    have hlt : ¬ ((loaded : Int) < n_keys) := by omega
    rw [loadArgsLoop_done ctx sep n_keys toks argpos loaded d hlt,
      parseArgsEnd_full n_keys argpos loaded d hn']
    rfl
  | succ m ih =>
    intro toks argpos loaded d hn hlen hsep hstore
    cases toks with
    | nil => simp at hlen
    | cons k rest =>
      simp only [List.take_succ_cons, List.mem_cons, forall_eq_or_imp] at hsep hstore
      have hlt : (loaded : Int) < n_keys := by push_cast at hn; omega
      obtain ⟨t, ht⟩ := Option.isSome_iff_exists.mp hstore.1
      have h := ih rest (argpos + 1) (loaded + 1) (AI_dictAdd d k t).1
        (by push_cast at hn ⊢; omega) (by simpa using hlen) hsep.2 hstore.2
      rw [loadArgsLoop_hit ctx sep n_keys k rest argpos loaded d t hlt hsep.1 ht]
      show (loadArgsLoop ctx sep n_keys rest (argpos + 1) (loaded + 1)
        (AI_dictAdd d k t).1).ret = _
      rw [h]; push_cast; omega

/-- C13 (amended): re-adding a name in a LOAD block is not an error.  Every
LOAD block with a valid positive count `n` and at least `n` key tokens, none
of the first `n` the separator and each present in the store, is parsed with
success, position `n + 2`, into every initial context, whether or not its
names repeat or are already in the context.  The context afterwards holds the
entries it held before, in place, and its names are exactly the earlier names
together with the consumed names `argv[2..n+1]`: at most `n` new entries, and
no name twice when none was there twice before. -/
theorem load_accepts_repeated_names (ctx : RedisModuleCtx) (argv : List String)
    (d : AI_dict RAI_Tensor) (sep : String) (n : Nat)
    (hcount : (argv[1]?).bind RedisModule_StringToLongLong = some (n : Int))
    (hpos : 0 < n) (hlen : n + 2 ≤ argv.length)
    (hsep : ∀ k ∈ (keyTokens argv).take n, strcasecmp k sep ≠ 0)
    (hstore : ∀ k ∈ (keyTokens argv).take n, (ctx.keyspace k).isSome) :
    (RAI_parseDAGLoadArgs ctx argv d sep).ret = (n : Int) + 2 ∧
    d <+: (RAI_parseDAGLoadArgs ctx argv d sep).dict ∧
    (∀ x, x ∈ AI_dictKeys (RAI_parseDAGLoadArgs ctx argv d sep).dict
      ↔ x ∈ AI_dictKeys d ∨ x ∈ (keyTokens argv).take n) ∧
    (RAI_parseDAGLoadArgs ctx argv d sep).dict.length ≤ d.length + n ∧
    ((AI_dictKeys d).Nodup → (AI_dictKeys (RAI_parseDAGLoadArgs ctx argv d sep).dict).Nodup) := by
  have hargc : ¬ argv.length < 3 := by omega
  have hn0 : ¬ ((n : Int) ≤ 0) := by omega
  have hrun : RAI_parseDAGLoadArgs ctx argv d sep
      = loadArgsLoop ctx sep (n : Int) (keyTokens argv) 2 0 d := by
    simp only [RAI_parseDAGLoadArgs, hargc, if_false, hcount, hn0, keyTokens]
  have h1 := loadArgsLoop_all_resolve ctx sep (n : Int) n (keyTokens argv) 2 0 d
    (by simp) (by simp [keyTokens]; omega) hsep hstore
  have hok : (loadArgsLoop ctx sep (n : Int) (keyTokens argv) 2 0 d).ret ≠ -1 := by
    rw [h1]; push_cast; omega
  obtain ⟨h2, h3⟩ := loadArgsLoop_success_keys ctx sep n (keyTokens argv) n 2 0 d (by simp) hok
  obtain ⟨h4, h5⟩ := loadArgsLoop_extends ctx sep n (keyTokens argv) 2 0 d
  rw [hrun]
  exact ⟨by rw [h1]; push_cast; omega, h4, h2, h3, h5⟩

theorem load_accepts_repeated_names_witness :
    (RAI_parseDAGLoadArgs ctxXY ["LOAD", "4", "x", "y", "x", "y"] [("y", ⟨9⟩)] "|>").ret
      = 4 + 2 ∧
    (RAI_parseDAGLoadArgs ctxXY ["LOAD", "4", "x", "y", "x", "y"] [("y", ⟨9⟩)] "|>").dict
      = [("y", ⟨9⟩), ("x", ⟨1⟩)] :=
  ⟨(load_accepts_repeated_names ctxXY ["LOAD", "4", "x", "y", "x", "y"] [("y", ⟨9⟩)] "|>" 4
      (by decide) (by decide) (by decide) (by decide) (by decide)).1,
    by decide⟩

/-- C14: `RAI_parseDAGLoadArgs` changes the target context by insertion only:
on every token stream and every initial context, whether the parse succeeds or
fails, the entries present before the call are still there, in place, and
every name found before is found afterwards with the same tensor, also when a
loaded name collides with it. -/
theorem load_keeps_existing_entries (ctx : RedisModuleCtx) (argv : List String)
    (d : AI_dict RAI_Tensor) (sep : String) :
    d <+: (RAI_parseDAGLoadArgs ctx argv d sep).dict ∧
    ∀ (k : String) (e : String × RAI_Tensor), AI_dictFind d k = some e →
      AI_dictFind (RAI_parseDAGLoadArgs ctx argv d sep).dict k = some e := by
  have hp : d <+: (RAI_parseDAGLoadArgs ctx argv d sep).dict := by
    rcases load_run ctx argv d sep with h | h | ⟨n, h⟩
    · rw [h]
    · rw [h]
    · rw [h]; exact (loadArgsLoop_extends ctx sep n (keyTokens argv) 2 0 d).1
  exact ⟨hp, fun k e hf => AI_dictFind_of_extends d _ k e hp hf⟩

theorem load_keeps_existing_entries_witness :
    AI_dictFind (RAI_parseDAGLoadArgs ctxXY ["LOAD", "2", "x", "y"] [("x", ⟨9⟩)] "|>").dict "x"
      = some ("x", ⟨9⟩) :=
  (load_keeps_existing_entries ctxXY ["LOAD", "2", "x", "y"] [("x", ⟨9⟩)] "|>").2
    "x" ("x", ⟨9⟩) (by decide)

theorem AI_dictAdd_find_none {V : Type} (d : AI_dict V) (p x : String) (v : V)
    (hd : AI_dictFind d x = none) (hne : p ≠ x) :
    AI_dictFind (AI_dictAdd d p v).1 x = none := by
  unfold AI_dictAdd
  cases AI_dictFind d p with
  | none => exact AI_dictFind_append_none d p x v hd hne
  | some e => exact hd

theorem AI_dictAdd_find_self {V : Type} (d : AI_dict V) (p : String) (v : V)
    (hd : AI_dictFind d p = none) :
    AI_dictFind (AI_dictAdd d p v).1 p = some (p, v) := by
  rw [AI_dictAdd_fresh d p v hd]
  exact AI_dictFind_append_self d p v hd

theorem loadArgsLoop_stops_early (ctx : RedisModuleCtx) (sep : String) (n_keys : Int) :
    ∀ (pre rest : List String) (argpos loaded : Nat) (d : AI_dict RAI_Tensor),
      (loaded : Int) + pre.length < n_keys →
      (∀ x ∈ pre, strcasecmp x sep ≠ 0) →
      (∀ x ∈ pre, (ctx.keyspace x).isSome) →
      (rest = [] ∨ ∃ k post, rest = k :: post ∧
        (strcasecmp k sep = 0 ∨ ctx.keyspace k = none)) →
      (loadArgsLoop ctx sep n_keys (pre ++ rest) argpos loaded d).ret = -1 ∧
      ∀ x ∈ pre, AI_dictFind d x = none → ∃ t, ctx.keyspace x = some t ∧
        AI_dictFind (loadArgsLoop ctx sep n_keys (pre ++ rest) argpos loaded d).dict x
          = some (x, t) := by
  intro pre
  induction pre with
  | nil =>
    intro rest argpos loaded d hlt _ _ hrest
    have hlt' : (loaded : Int) < n_keys := by simpa using hlt
    have hne : (loaded : Int) ≠ n_keys := by omega
    refine ⟨?_, by simp⟩
    rw [List.nil_append]
    rcases hrest with rfl | ⟨k, post, rfl, hk⟩
    · simp only [loadArgsLoop, parseArgsEnd_short n_keys argpos loaded d hne]
    · by_cases hs : strcasecmp k sep = 0
      · rw [loadArgsLoop_sep ctx sep n_keys k post argpos loaded d hlt' hs,
          parseArgsEnd_short n_keys argpos loaded d hne]
      · rcases hk with hk | hk
        · exact absurd hk hs
        · rw [loadArgsLoop_miss ctx sep n_keys k post argpos loaded d hlt' hs hk]
  | cons p pre ih =>
    intro rest argpos loaded d hlt hsep hstore hrest
    simp only [List.length_cons, List.mem_cons, forall_eq_or_imp] at hlt hsep hstore
    have hlt' : (loaded : Int) < n_keys := by push_cast at hlt; omega
    obtain ⟨t, ht⟩ := Option.isSome_iff_exists.mp hstore.1
    obtain ⟨h1, h2⟩ := ih rest (argpos + 1) (loaded + 1) (AI_dictAdd d p t).1
      (by push_cast at hlt ⊢; omega) hsep.2 hstore.2 hrest
    have hext := (loadArgsLoop_extends ctx sep n_keys (pre ++ rest) (argpos + 1) (loaded + 1)
      (AI_dictAdd d p t).1).1
    rw [List.cons_append, loadArgsLoop_hit ctx sep n_keys p _ argpos loaded d t hlt' hsep.1 ht]
    refine ⟨h1, ?_⟩
    intro x hx hnone
    by_cases hxp : x = p
    · subst hxp
      exact ⟨t, ht, AI_dictFind_of_extends _ _ x (x, t) hext (AI_dictAdd_find_self d x t hnone)⟩
    · have hx' : x ∈ pre := by
        rcases List.mem_cons.mp hx with h | h
        · exact absurd h hxp
        · exact h
      exact h2 x hx' (AI_dictAdd_find_none d p x t hnone (fun h => hxp h.symm))

/-- C15 (the claim fails): the block `LOAD 3 x y z`, whose third key is missing
from the store, parsed into a context that already holds `x` with tensor `9`,
returns `-1` and leaves `x` with tensor `9`, not with the tensor `1` the store
holds under `x`. -/
theorem load_failure_keeps_older_tensor :
    (RAI_parseDAGLoadArgs ctxXY ["LOAD", "3", "x", "y", "z"] [("x", ⟨9⟩)] "|>").ret = -1 ∧
    ctxXY.keyspace "x" = some ⟨1⟩ ∧
    AI_dictFind (RAI_parseDAGLoadArgs ctxXY ["LOAD", "3", "x", "y", "z"] [("x", ⟨9⟩)] "|>").dict
      "x" = some ("x", ⟨9⟩) ∧
    AI_dictFind (RAI_parseDAGLoadArgs ctxXY ["LOAD", "3", "x", "y", "z"] [("x", ⟨9⟩)] "|>").dict
      "x" ≠ some ("x", ⟨1⟩) := by
  decide

/-- C15 (amended): LOAD does not roll back.  In a block with a valid count `n`
whose first `k < n` key tokens are not the separator and exist in the store,
and whose next key token is missing from the store, or is the separator, or
does not exist because the tokens ran out, `RAI_parseDAGLoadArgs` returns `-1`
and the target context afterwards still contains those `k` names: each of them
that was not in the context before the call is mapped to its store tensor, and
every name the context held before the call keeps the tensor it had. -/
theorem load_failure_keeps_loaded_keys (ctx : RedisModuleCtx) (argv : List String)
    (d : AI_dict RAI_Tensor) (sep : String) (n : Nat) (pre rest : List String)
    (hcount : (argv[1]?).bind RedisModule_StringToLongLong = some (n : Int))
    (hsplit : keyTokens argv = pre ++ rest)
    (hk : pre.length < n)
    (hsep : ∀ x ∈ pre, strcasecmp x sep ≠ 0)
    (hstore : ∀ x ∈ pre, (ctx.keyspace x).isSome)
    (hnext : rest = [] ∨ ∃ k post, rest = k :: post ∧
      (strcasecmp k sep = 0 ∨ ctx.keyspace k = none)) :
    (RAI_parseDAGLoadArgs ctx argv d sep).ret = -1 ∧
    (∀ x ∈ pre, AI_dictFind d x = none → ∃ t, ctx.keyspace x = some t ∧
      AI_dictFind (RAI_parseDAGLoadArgs ctx argv d sep).dict x = some (x, t)) ∧
    (∀ x e, AI_dictFind d x = some e →
      AI_dictFind (RAI_parseDAGLoadArgs ctx argv d sep).dict x = some e) := by
  have hkeep : ∀ x e, AI_dictFind d x = some e →
      AI_dictFind (RAI_parseDAGLoadArgs ctx argv d sep).dict x = some e := by
    intro x e hf
    rcases load_run ctx argv d sep with h | h | ⟨m, h⟩
    · rw [h]; exact hf
    · rw [h]; exact hf
    · rw [h]
      exact AI_dictFind_of_extends d _ x e
        (loadArgsLoop_extends ctx sep m (keyTokens argv) 2 0 d).1 hf
  by_cases hargc : argv.length < 3
  · have hnil : keyTokens argv = [] := by
      apply List.length_eq_zero.mp
      have h1 : argv[1]? ≠ none := by
        intro h; rw [h] at hcount; simp at hcount
      have h2 : 1 < argv.length := by
        by_contra hc
        exact h1 (List.getElem?_eq_none (by omega))
      simp [keyTokens]; omega
    have hpre : pre = [] := by
      rw [hnil] at hsplit
      exact (List.append_eq_nil.mp hsplit.symm).1
    subst hpre
    refine ⟨?_, by simp, hkeep⟩
    simp [RAI_parseDAGLoadArgs, hargc]
  · have hn0 : ¬ ((n : Int) ≤ 0) := by omega
    have hrun : RAI_parseDAGLoadArgs ctx argv d sep
        = loadArgsLoop ctx sep (n : Int) (pre ++ rest) 2 0 d := by
      simp only [RAI_parseDAGLoadArgs, hargc, if_false, hcount, hn0]
      rw [← hsplit, keyTokens]
    obtain ⟨h1, h2⟩ := loadArgsLoop_stops_early ctx sep (n : Int) pre rest 2 0 d
      (by push_cast; omega) hsep hstore hnext
    refine ⟨by rw [hrun]; exact h1, ?_, hkeep⟩
    rw [hrun]
    exact h2

theorem load_failure_keeps_loaded_keys_witness :
    (RAI_parseDAGLoadArgs ctxXY ["LOAD", "3", "x", "y", "z"] [("x", ⟨9⟩)] "|>").ret = -1 ∧
    (∃ t, ctxXY.keyspace "y" = some t ∧
      AI_dictFind (RAI_parseDAGLoadArgs ctxXY ["LOAD", "3", "x", "y", "z"] [("x", ⟨9⟩)]
        "|>").dict "y" = some ("y", t)) ∧
    AI_dictFind (RAI_parseDAGLoadArgs ctxXY ["LOAD", "3", "x", "y", "z"] [("x", ⟨9⟩)] "|>").dict
      "x" = some ("x", ⟨9⟩) :=
  ⟨(load_failure_keeps_loaded_keys ctxXY ["LOAD", "3", "x", "y", "z"] [("x", ⟨9⟩)] "|>" 3
      ["x", "y"] ["z"] (by decide) (by decide) (by decide) (by decide) (by decide)
      (Or.inr ⟨"z", [], rfl, Or.inr (by decide)⟩)).1,
    (load_failure_keeps_loaded_keys ctxXY ["LOAD", "3", "x", "y", "z"] [("x", ⟨9⟩)] "|>" 3
      ["x", "y"] ["z"] (by decide) (by decide) (by decide) (by decide) (by decide)
      (Or.inr ⟨"z", [], rfl, Or.inr (by decide)⟩)).2.1 "y" (by decide) (by decide),
    (load_failure_keeps_loaded_keys ctxXY ["LOAD", "3", "x", "y", "z"] [("x", ⟨9⟩)] "|>" 3
      ["x", "y"] ["z"] (by decide) (by decide) (by decide) (by decide) (by decide)
      (Or.inr ⟨"z", [], rfl, Or.inr (by decide)⟩)).2.2 "x" ("x", ⟨9⟩) (by decide)⟩

/-! ## The execution engine -/

theorem batch0Output_setOutputTensor (dst : RAI_ModelRunCtx) (o0 o : Nat)
    (v : Option RAI_Tensor) :
    batch0Output (setOutputTensor dst o0 v) o
      = if o0 = o ∧ (batch0Output dst o).isSome = true then some v else batch0Output dst o := by
  obtain ⟨model, batches⟩ := dst
  unfold batch0Output setOutputTensor
  rcases batches with _ | ⟨b, bs⟩
  · simp
  · simp only [List.getElem?_set]
    by_cases h : o0 = o
    · subst h
      by_cases hlt : o0 < b.outputs.length
      · simp [hlt]
      · simp [hlt, List.getElem?_eq_none (Nat.le_of_not_lt hlt)]
    · simp [h]

theorem runDagOutputsLoop_step (mctx : Option RAI_ModelRunCtx) (remaining o : Nat)
    (dst : RAI_ModelRunCtx) :
    (runDagOutputsLoop mctx (remaining + 1) o dst).1
      = (runDagOutputsLoop mctx remaining (o + 1)
          (setOutputTensor dst o ((outputTensor mctx o).map RAI_TensorGetShallowCopy))).1 := by
  rw [runDagOutputsLoop]
  cases outputTensor mctx o <;> rfl

theorem runDagOutputsLoop_slots (mctx : Option RAI_ModelRunCtx) :
    ∀ (remaining o0 : Nat) (dst : RAI_ModelRunCtx) (o : Nat),
      batch0Output (runDagOutputsLoop mctx remaining o0 dst).1 o
        = if o0 ≤ o ∧ o < o0 + remaining ∧ (batch0Output dst o).isSome = true then
            some ((outputTensor mctx o).map RAI_TensorGetShallowCopy)
          else batch0Output dst o := by
  intro remaining
  induction remaining with
  | zero =>
    intro o0 dst o
    have : ¬ (o0 ≤ o ∧ o < o0 + 0 ∧ (batch0Output dst o).isSome = true) := by omega
    simp only [runDagOutputsLoop, this, if_false]
  | succ r ih =>
    intro o0 dst o
    rw [runDagOutputsLoop_step, ih, batch0Output_setOutputTensor]
    by_cases h0 : o0 = o
    · subst h0
      by_cases hs : (batch0Output dst o0).isSome = true
      · have h1 : ¬ (o0 + 1 ≤ o0) := by omega
        have h2 : o0 ≤ o0 ∧ o0 < o0 + (r + 1) ∧ (batch0Output dst o0).isSome = true :=
          ⟨le_refl _, by omega, hs⟩
        simp only [h1, false_and, if_false, true_and, hs, if_true, h2, and_self]
      · simp [hs]
    · have h1 : (o0 + 1 ≤ o ∧ o < o0 + 1 + r) ↔ (o0 ≤ o ∧ o < o0 + (r + 1)) := by omega
      simp only [h0, false_and, if_false]
      by_cases hs : (batch0Output dst o).isSome = true
      · by_cases hr : o0 ≤ o ∧ o < o0 + (r + 1)
        · have hr' := h1.mpr hr
          simp [hr.1, hr.2, hr'.1, hr'.2, hs]
        · have hr' : ¬ (o0 + 1 ≤ o ∧ o < o0 + 1 + r) := fun h => hr (h1.mp h)
          have e1 : ¬ (o0 + 1 ≤ o ∧ o < o0 + 1 + r ∧ (batch0Output dst o).isSome = true) :=
            fun h => hr' ⟨h.1, h.2.1⟩
          have e2 : ¬ (o0 ≤ o ∧ o < o0 + (r + 1) ∧ (batch0Output dst o).isSome = true) :=
            fun h => hr ⟨h.1, h.2.1⟩
          simp only [e1, e2, if_false]
      · have e1 : ¬ (o0 + 1 ≤ o ∧ o < o0 + 1 + r ∧ (batch0Output dst o).isSome = true) :=
          fun h => hs h.2.2
        have e2 : ¬ (o0 ≤ o ∧ o < o0 + (r + 1) ∧ (batch0Output dst o).isSome = true) :=
          fun h => hs h.2.2
        simp only [e1, e2, if_false]

theorem runDagOutputsLoop_effects (mctx : Option RAI_ModelRunCtx) :
    ∀ (remaining o0 : Nat) (dst : RAI_ModelRunCtx),
      ∀ e ∈ (runDagOutputsLoop mctx remaining o0 dst).2,
        isModelRun e = false ∧ isUnblockClient e = false := by
  intro remaining
  induction remaining with
  | zero => intro o0 dst e he; simp [runDagOutputsLoop] at he
  | succ r ih =>
    intro o0 dst e he
    rw [runDagOutputsLoop] at he
    rcases ht : outputTensor mctx o0 with _ | t
    · rw [ht] at he
      exact ih _ _ e he
    · rw [ht] at he
      rcases List.mem_cons.mp he with rfl | he
      · exact ⟨rfl, rfl⟩
      · exact ih _ _ e he

theorem runDag_declared_outputs (rt : ModelRuntime) (rinfo : RedisAI_RunInfo) :
    RAI_ModelRunCtxNumOutputs (RAI_ModelRun rt (runDagSubContext rt rinfo)).2.2 = 0 ∨
    ∃ b bs, rinfo.mctx.batches = b :: bs ∧
      (RAI_ModelRun rt (runDagSubContext rt rinfo)).2.2
        = some ⟨rinfo.mctx.model,
            [⟨b.inputs, (List.range b.outputs.length).map
              (rt.run (runDagSubContext rt rinfo)).produced⟩]⟩ := by
  rcases hc : rt.createFails
  · rcases ha : rt.addBatchFails
    · rcases hb : rinfo.mctx.batches with _ | ⟨b, bs⟩
      · left
        simp [runDagSubContext, RAI_ModelRunCtxCreate, RAI_ModelRunCtxAddBatch,
          RAI_ModelRunCtxCopyBatch, RAI_ModelRun, RAI_ModelRunCtxNumOutputs, hc, ha, hb]
      · right
        refine ⟨b, bs, rfl, ?_⟩
        have hsub : runDagSubContext rt rinfo
            = some ⟨rinfo.mctx.model, [⟨b.inputs, b.outputs.map (fun _ => none)⟩]⟩ := by
          simp [runDagSubContext, RAI_ModelRunCtxCreate, RAI_ModelRunCtxAddBatch,
            RAI_ModelRunCtxCopyBatch, hc, ha, hb]
        rw [hsub]
        simp [RAI_ModelRun]
    · left
      simp [runDagSubContext, RAI_ModelRunCtxCreate, RAI_ModelRunCtxAddBatch,
        RAI_ModelRunCtxCopyBatch, RAI_ModelRun, RAI_ModelRunCtxNumOutputs, hc, ha]
  · left
    simp [runDagSubContext, RAI_ModelRunCtxCreate, RAI_ModelRunCtxAddBatch,
      RAI_ModelRunCtxCopyBatch, RAI_ModelRun, RAI_ModelRunCtxNumOutputs, hc]

theorem runDag_descriptor_fields (rt : ModelRuntime) (rinfo : RedisAI_RunInfo) :
    (RedisAI_RunDag rt rinfo).rinfo.status = (rt.run (runDagSubContext rt rinfo)).status ∧
    ((rt.run (runDagSubContext rt rinfo)).err.code ≠ RAI_OK →
      (RedisAI_RunDag rt rinfo).rinfo.err
        = some ⟨(rt.run (runDagSubContext rt rinfo)).err.code,
            (rt.run (runDagSubContext rt rinfo)).err.detail,
            (rt.run (runDagSubContext rt rinfo)).err.detail_oneline⟩) ∧
    ((rt.run (runDagSubContext rt rinfo)).err.code = RAI_OK →
      (RedisAI_RunDag rt rinfo).rinfo.err = some ⟨RAI_OK, none, none⟩) ∧
    (RedisAI_RunDag rt rinfo).rinfo.duration_us = rt.stop - rt.start := by
  refine ⟨rfl, ?_, ?_, rfl⟩
  · intro hcode
    simp only [RedisAI_RunDag, RAI_ModelRun, hcode, ne_eq, not_false_eq_true, if_true,
      RedisModule_Strdup]
  · intro hcode
    simp only [RedisAI_RunDag, RAI_ModelRun, hcode, ne_eq, not_true_eq_false, if_false]

/-- C16 (the claim fails): a backend that returns the status `REDISMODULE_OK`
while leaving an error with a code other than `RAI_OK` ends with the
descriptor's status `REDISMODULE_OK`, not the error status, although the error
slot carries the code `3` and the detail "shape mismatch". -/
theorem rundag_status_is_not_derived_from_code :
    (rtOkWithErrorCode.run (runDagSubContext rtOkWithErrorCode rinfoReady)).err.code ≠ RAI_OK ∧
    (RedisAI_RunDag rtOkWithErrorCode rinfoReady).rinfo.err
      = some ⟨3, some "shape mismatch", some "shape mismatch"⟩ ∧
    (RedisAI_RunDag rtOkWithErrorCode rinfoReady).rinfo.status = REDISMODULE_OK ∧
    (RedisAI_RunDag rtOkWithErrorCode rinfoReady).rinfo.status ≠ REDISMODULE_ERR := by
  decide

/-- C16 (amended): after `RedisAI_RunDag` the descriptor's status is the
status the backend run returned, so it is the error status exactly when the
backend returned the error status, whatever the error code; the code of the
error slot is the code of the backend's error; when that code is not `RAI_OK`
the error slot carries the backend's detail and one-line detail; the duration
is the second clock reading minus the first, on success and on failure. -/
theorem rundag_status_error_duration (rt : ModelRuntime) (rinfo : RedisAI_RunInfo) :
    (RedisAI_RunDag rt rinfo).rinfo.status = (rt.run (runDagSubContext rt rinfo)).status ∧
    ((RedisAI_RunDag rt rinfo).rinfo.status = REDISMODULE_ERR
      ↔ (rt.run (runDagSubContext rt rinfo)).status = REDISMODULE_ERR) ∧
    (RedisAI_RunDag rt rinfo).rinfo.err.map RAI_Error.code
      = some (rt.run (runDagSubContext rt rinfo)).err.code ∧
    ((rt.run (runDagSubContext rt rinfo)).err.code ≠ RAI_OK →
      (RedisAI_RunDag rt rinfo).rinfo.err.map RAI_Error.detail
        = some (rt.run (runDagSubContext rt rinfo)).err.detail ∧
      (RedisAI_RunDag rt rinfo).rinfo.err.map RAI_Error.detail_oneline
        = some (rt.run (runDagSubContext rt rinfo)).err.detail_oneline) ∧
    (RedisAI_RunDag rt rinfo).rinfo.duration_us = rt.stop - rt.start := by
  obtain ⟨h1, h2, h3, h4⟩ := runDag_descriptor_fields rt rinfo
  refine ⟨h1, by rw [h1], ?_, ?_, h4⟩
  · by_cases hcode : (rt.run (runDagSubContext rt rinfo)).err.code = RAI_OK
    · rw [h3 hcode, hcode]; rfl
    · rw [h2 hcode]; rfl
  · intro hcode
    rw [h2 hcode]
    exact ⟨rfl, rfl⟩

theorem rundag_status_error_duration_witness :
    (RedisAI_RunDag rtShapeMismatch rinfoReady).rinfo.status = REDISMODULE_ERR ∧
    (RedisAI_RunDag rtShapeMismatch rinfoReady).rinfo.err.map RAI_Error.detail
      = some (some "shape mismatch") ∧
    (RedisAI_RunDag rtShapeMismatch rinfoReady).rinfo.err.map RAI_Error.detail_oneline
      = some (some "shape mismatch") ∧
    (RedisAI_RunDag rtShapeMismatch rinfoReady).rinfo.duration_us = 150 :=
  ⟨(rundag_status_error_duration rtShapeMismatch rinfoReady).2.1.mpr (by decide),
    ((rundag_status_error_duration rtShapeMismatch rinfoReady).2.2.2.1 (by decide)).1,
    ((rundag_status_error_duration rtShapeMismatch rinfoReady).2.2.2.1 (by decide)).2,
    (rundag_status_error_duration rtShapeMismatch rinfoReady).2.2.2.2⟩

theorem runDag_output_slot (rt : ModelRuntime) (rinfo : RedisAI_RunInfo) (o : Nat)
    (ho : o < RAI_ModelRunCtxNumOutputs (RAI_ModelRun rt (runDagSubContext rt rinfo)).2.2) :
    batch0Output (RedisAI_RunDag rt rinfo).rinfo.mctx o
      = some (((rt.run (runDagSubContext rt rinfo)).produced o).map
          RAI_TensorGetShallowCopy) ∧
    outputTensor (RAI_ModelRun rt (runDagSubContext rt rinfo)).2.2 o
      = (rt.run (runDagSubContext rt rinfo)).produced o := by
  rcases runDag_declared_outputs rt rinfo with h0 | ⟨b, bs, hb, hsub⟩
  · omega
  · have hn : RAI_ModelRunCtxNumOutputs (RAI_ModelRun rt (runDagSubContext rt rinfo)).2.2
        = b.outputs.length := by
      rw [hsub]; simp [RAI_ModelRunCtxNumOutputs]
    rw [hn] at ho
    have hprod : outputTensor (RAI_ModelRun rt (runDagSubContext rt rinfo)).2.2 o
        = (rt.run (runDagSubContext rt rinfo)).produced o := by
      rw [hsub]
      simp [outputTensor, List.getElem?_map, List.getElem?_range ho]
    have hslot : (batch0Output rinfo.mctx o).isSome = true := by
      simp [batch0Output, hb, List.getElem?_eq_getElem ho]
    refine ⟨?_, hprod⟩
    show batch0Output (runDagOutputsLoop (RAI_ModelRun rt (runDagSubContext rt rinfo)).2.2
      (RAI_ModelRunCtxNumOutputs (RAI_ModelRun rt (runDagSubContext rt rinfo)).2.2) 0
      rinfo.mctx).1 o = _
    rw [runDagOutputsLoop_slots, hn, hprod]
    simp [ho, hslot]

/-- C17: after `RedisAI_RunDag`, every declared output position `o` of the
transient sub-context (`o < num_outputs`) is a position of batch 0 of the
descriptor, and it holds the shallow copy of the tensor the backend produced
at `o` when there is one and the empty marker otherwise, whatever it held
before and whatever status the backend returned. -/
theorem rundag_outputs_populated (rt : ModelRuntime) (rinfo : RedisAI_RunInfo) (o : Nat)
    (ho : o < RAI_ModelRunCtxNumOutputs (RAI_ModelRun rt (runDagSubContext rt rinfo)).2.2) :
    batch0Output (RedisAI_RunDag rt rinfo).rinfo.mctx o
      = some (((rt.run (runDagSubContext rt rinfo)).produced o).map
          RAI_TensorGetShallowCopy) ∧
    outputTensor (RAI_ModelRun rt (runDagSubContext rt rinfo)).2.2 o
      = (rt.run (runDagSubContext rt rinfo)).produced o :=
  runDag_output_slot rt rinfo o ho

theorem rundag_outputs_populated_witness :
    batch0Output (RedisAI_RunDag rtProducesFirst rinfoReady).rinfo.mctx 0
      = some (some ⟨42⟩) ∧
    batch0Output (RedisAI_RunDag rtProducesFirst rinfoReady).rinfo.mctx 1 = some none :=
  ⟨(rundag_outputs_populated rtProducesFirst rinfoReady 0 (by decide)).1,
    (rundag_outputs_populated rtProducesFirst rinfoReady 1 (by decide)).1⟩

theorem rundag_trace (rt : ModelRuntime) (rinfo : RedisAI_RunInfo) :
    ∃ copies, (∀ e ∈ copies, isModelRun e = false ∧ isUnblockClient e = false) ∧
      (RedisAI_RunDag rt rinfo).out
        = [RunEffect.ModelRunCtxCreate rinfo.mctx.model, RunEffect.ModelRunCtxAddBatch,
            RunEffect.ModelRunCtxCopyBatch, RunEffect.ustime, RunEffect.ModelRun,
            RunEffect.ustime] ++ copies
          ++ (match rinfo.client with
              | some client => [RunEffect.UnblockClient client (RedisAI_RunDag rt rinfo).rinfo]
              | none => []) :=
  ⟨_, runDagOutputsLoop_effects _ _ _ _, rfl⟩

theorem countP_eq_zero_of_forall {α : Type} (p : α → Bool) (l : List α)
    (h : ∀ e ∈ l, p e = false) : l.countP p = 0 := by
  rw [List.countP_eq_zero]
  intro e he
  simp [h e he]

/-- C18: `RedisAI_RunDag` invokes the backend run primitive exactly once in
every call.  When a caller is suspended (`client` is present) it resumes that
caller exactly once, as its last call and after the one backend run, and the
payload is the descriptor with everything written: the status and the error
slot of the backend run, the duration, and every declared output position
holding the produced tensor or the empty marker.  When no caller is suspended
it resumes nobody. -/
theorem rundag_resumes_caller_once (rt : ModelRuntime) (rinfo : RedisAI_RunInfo) :
    (RedisAI_RunDag rt rinfo).out.countP isModelRun = 1 ∧
    (∀ c, rinfo.client = some c →
      ∃ before payload, (RedisAI_RunDag rt rinfo).out
          = before ++ [RunEffect.UnblockClient c payload] ∧
        before.countP isUnblockClient = 0 ∧
        before.countP isModelRun = 1 ∧
        payload = (RedisAI_RunDag rt rinfo).rinfo ∧
        payload.status = (rt.run (runDagSubContext rt rinfo)).status ∧
        ((rt.run (runDagSubContext rt rinfo)).err.code ≠ RAI_OK →
          payload.err = some ⟨(rt.run (runDagSubContext rt rinfo)).err.code,
            (rt.run (runDagSubContext rt rinfo)).err.detail,
            (rt.run (runDagSubContext rt rinfo)).err.detail_oneline⟩) ∧
        ((rt.run (runDagSubContext rt rinfo)).err.code = RAI_OK →
          payload.err = some ⟨RAI_OK, none, none⟩) ∧
        payload.duration_us = rt.stop - rt.start ∧
        (∀ o, o < RAI_ModelRunCtxNumOutputs
            (RAI_ModelRun rt (runDagSubContext rt rinfo)).2.2 →
          batch0Output payload.mctx o
            = some (((rt.run (runDagSubContext rt rinfo)).produced o).map
                RAI_TensorGetShallowCopy))) ∧
    (rinfo.client = none → (RedisAI_RunDag rt rinfo).out.countP isUnblockClient = 0) := by
  obtain ⟨copies, hc, hout⟩ := rundag_trace rt rinfo
  obtain ⟨f1, f2, f3, f4⟩ := runDag_descriptor_fields rt rinfo
  have hm := countP_eq_zero_of_forall isModelRun copies (fun e he => (hc e he).1)
  have hu := countP_eq_zero_of_forall isUnblockClient copies (fun e he => (hc e he).2)
  rw [hout]
  refine ⟨?_, ?_, ?_⟩
  · cases rinfo.client <;>
      simp [List.countP_append, List.countP_cons, isModelRun, hm]
  · intro c hcl
    rw [hcl]
    refine ⟨_, _, rfl, ?_, ?_, rfl, f1, f2, f3, f4, ?_⟩
    · simp [List.countP_append, List.countP_cons, isUnblockClient, hu]
    · simp [List.countP_append, List.countP_cons, isModelRun, hm]
    · intro o ho
      exact (runDag_output_slot rt rinfo o ho).1
  · intro hcl
    rw [hcl]
    simp [List.countP_append, List.countP_cons, isUnblockClient, hu]

theorem rundag_resumes_caller_once_witness :
    ∃ before payload, (RedisAI_RunDag rtProducesFirst rinfoReady).out
        = before ++ [RunEffect.UnblockClient 5 payload] ∧
      before.countP isModelRun = 1 ∧
      payload.status = REDISMODULE_OK ∧
      payload.err = some ⟨RAI_OK, none, none⟩ ∧
      payload.duration_us = 150 ∧
      batch0Output payload.mctx 0 = some (some ⟨42⟩) ∧
      batch0Output payload.mctx 1 = some none := by
  obtain ⟨before, payload, h1, _, h2, _, h3, _, h4, h5, h6⟩ :=
    (rundag_resumes_caller_once rtProducesFirst rinfoReady).2.1 5 rfl
  exact ⟨before, payload, h1, h2, h3.trans (by decide), h4 (by decide),
    h5.trans (by decide), (h6 0 (by decide)).trans (by decide),
    (h6 1 (by decide)).trans (by decide)⟩

/-- C19 (the claim fails): when creating the sub-context fails, the backend
run primitive is invoked all the same, once, and the descriptor ends with the
status and the error code that call returned, here `REDISMODULE_OK` and
`RAI_OK`, not with an error status and a code of its own. -/
theorem rundag_failed_creation_goes_unnoticed :
    rtCreateFails.createFails = true ∧
    RAI_ModelRunCtxCreate rtCreateFails rinfoReady.mctx.model = none ∧
    (RedisAI_RunDag rtCreateFails rinfoReady).out.countP isModelRun = 1 ∧
    (RedisAI_RunDag rtCreateFails rinfoReady).rinfo.status = REDISMODULE_OK ∧
    (RedisAI_RunDag rtCreateFails rinfoReady).rinfo.status ≠ REDISMODULE_ERR ∧
    (RedisAI_RunDag rtCreateFails rinfoReady).rinfo.err.map RAI_Error.code = some RAI_OK := by
  decide

/-- C19 (amended): `RedisAI_RunDag` does not test whether creating the
sub-context or its batch failed: in every call, whatever the two creations
returned, it invokes the backend run primitive exactly once, and the status
and the error code of the descriptor are the ones that call returned; there is
no error code for a failed creation. -/
theorem rundag_has_no_creation_check (rt : ModelRuntime) (rinfo : RedisAI_RunInfo) :
    (RedisAI_RunDag rt rinfo).out.countP isModelRun = 1 ∧
    (RedisAI_RunDag rt rinfo).rinfo.status = (rt.run (runDagSubContext rt rinfo)).status ∧
    (RedisAI_RunDag rt rinfo).rinfo.err.map RAI_Error.code
      = some (rt.run (runDagSubContext rt rinfo)).err.code := by
  obtain ⟨copies, hc, hout⟩ := rundag_trace rt rinfo
  have hm := countP_eq_zero_of_forall isModelRun copies (fun e he => (hc e he).1)
  refine ⟨?_, rfl, ?_⟩
  · rw [hout]
    cases rinfo.client <;>
      simp [List.countP_append, List.countP_cons, isModelRun, hm]
  · simp only [RedisAI_RunDag, RAI_ModelRun, Option.map_some']
    split <;> rfl

theorem rundag_has_no_creation_check_witness :
    (RedisAI_RunDag rtCreateFails rinfoReady).out.countP isModelRun = 1 ∧
    (RedisAI_RunDag rtCreateFails rinfoReady).rinfo.status
      = (rtCreateFails.run (runDagSubContext rtCreateFails rinfoReady)).status :=
  ⟨(rundag_has_no_creation_check rtCreateFails rinfoReady).1,
    (rundag_has_no_creation_check rtCreateFails rinfoReady).2.1⟩


end RedisAI
